import Mathlib

/-!
# Verification of the `td` task-graph store and undo layer

A shallow embedding of the core of the `td` todo manager:

* the task graph store (`td-lib/src/database/database_api.rs`,
  `td-lib/src/database/v1/file_model.rs`), whose in-memory `Database`
  wraps a petgraph `StableDiGraph<Task, TaskDependency>` together with a
  `task_id_to_index` cache;
* the versioned database file (`td-lib/src/database/database_file.rs`,
  `td-lib/src/errors/mod.rs`);
* the generic snapshot undo/redo wrapper (`td-util/src/undo.rs`).

Modelling conventions:

* The petgraph `StableDiGraph` is modelled as two slot arenas
  (`nodes`, `edges`) where `none` marks a slot freed by a removal, plus
  LIFO free lists (`freeNodes`, `freeEdges`) from which `add_node` /
  `add_edge` reuse indices, matching the stable-graph behaviour of keeping
  all other indices unchanged across removals.  Iteration over
  `node_indices()` / `edge_indices()` is iteration over occupied slots in
  index order.
* `HashMap<TaskId, NodeIndex>` is modelled as an association list used
  only through lookup / insert (overwriting) / remove, which is all the
  source uses.
* Timestamps (`OffsetDateTime`) are opaque to every operation verified
  here and are modelled as `Int`; task ids as `String`.
* A Rust panic (`expect`, `unwrap`, `HashMap` indexing with a missing
  key, petgraph's panic on an invalid edge endpoint) is modelled by an
  `Option`-valued function returning `none`.
-/

namespace Td

/-- `Task` from `td-lib/src/database/v1/mod.rs`: id, title, creation time,
optional start/completion times, and a tag list. -/
structure Task where
  id : String
  title : String
  time_created : Int
  time_started : Option Int
  time_completed : Option Int
  tags : List String
deriving DecidableEq, Repr

/-- The in-memory `Database`: a stable directed graph of tasks (slot arenas
with free lists, see the module comment) plus the `task_id_to_index` cache. -/
structure Database where
  nodes : List (Option Task)
  edges : List (Option (Nat × Nat))
  freeNodes : List Nat
  freeEdges : List Nat
  task_id_to_index : List (String × Nat)
deriving DecidableEq, Repr

/-- `Database::default()`: an empty graph with an empty cache. -/
def emptyDatabase : Database := ⟨[], [], [], [], []⟩

/-- The task stored at node slot `i`, if slot `i` exists and is occupied. -/
def taskAt (nodes : List (Option Task)) (i : Nat) : Option Task :=
  (nodes[i]?).bind id

/-- Whether node slot `i` is occupied (a live node for petgraph). -/
def slotOccupied (nodes : List (Option Task)) (i : Nat) : Bool :=
  (taskAt nodes i).isSome

/-- The occupied edges, in edge-index order (petgraph `edge_indices()`
resolved through `edge_endpoints`, which cannot fail on live edges). -/
def occupiedEdges (g : Database) : List (Nat × Nat) :=
  g.edges.filterMap id

/-- `HashMap::get` on the id cache. -/
def lookupAssoc (m : List (String × Nat)) (k : String) : Option Nat :=
  (m.find? (fun p => p.1 == k)).map (fun p => p.2)

/-- `HashMap::remove` on the id cache. -/
def removeAssoc (m : List (String × Nat)) (k : String) : List (String × Nat) :=
  m.filter (fun p => !(p.1 == k))

/-- `HashMap::insert` on the id cache (overwrites any previous binding). -/
def insertAssoc (m : List (String × Nat)) (k : String) (v : Nat) : List (String × Nat) :=
  (k, v) :: removeAssoc m k

/-- The fallback linear scan in `Database::get_node_index`: walk
`node_indices()` and return the first node whose task id matches. -/
def scanFrom : List (Option Task) → Nat → String → Option Nat
  | [], _, _ => none
  | some t :: rest, i, tid => if t.id == tid then some i else scanFrom rest (i + 1) tid
  | none :: rest, i, tid => scanFrom rest (i + 1) tid

/-- `Database::get_node_index`: the cache lookup, falling back to a full
linear scan when the cache misses. -/
def get_node_index (g : Database) (tid : String) : Option Nat :=
  match lookupAssoc g.task_id_to_index tid with
  | some i => some i
  | none => scanFrom g.nodes 0 tid

/-- petgraph `StableDiGraph::add_node`: reuse the most recently freed slot
if one exists, otherwise append a new slot; returns the new node's index. -/
def addNode (g : Database) (t : Task) : Database × Nat :=
  match g.freeNodes with
  | i :: rest =>
    ({ g with nodes := g.nodes.set i (some t), freeNodes := rest }, i)
  | [] =>
    ({ g with nodes := g.nodes ++ [some t] }, g.nodes.length)

/-- petgraph `StableDiGraph::add_edge` once both endpoints are known to be
live: place the edge in a freed slot if one exists, otherwise append. -/
def addEdgeRaw (g : Database) (s t : Nat) : Database :=
  match g.freeEdges with
  | k :: rest =>
    { g with edges := g.edges.set k (some (s, t)), freeEdges := rest }
  | [] =>
    { g with edges := g.edges ++ [some (s, t)] }

/-- petgraph `StableDiGraph::add_edge`, which panics (`none`) if either
endpoint is not a live node. -/
def add_edge (g : Database) (s t : Nat) : Option Database :=
  if slotOccupied g.nodes s && slotOccupied g.nodes t then some (addEdgeRaw g s t)
  else none

/-- Clearing all edges incident (in either direction) to node `i`, as
petgraph `remove_node` does. -/
def clearIncident (edges : List (Option (Nat × Nat))) (i : Nat) : List (Option (Nat × Nat)) :=
  edges.map (fun e =>
    match e with
    | some (s, t) => if s == i || t == i then none else some (s, t)
    | none => none)

/-- The indices of the live edges incident to node `i`; these slots are
freed by `remove_node`. -/
def freedEdgeIndices (edges : List (Option (Nat × Nat))) (i : Nat) : List Nat :=
  (List.range edges.length).filter (fun k =>
    match edges[k]? with
    | some (some (s, t)) => s == i || t == i
    | _ => false)

/-- petgraph `StableDiGraph::remove_node`: free the node slot and remove
every incident edge, leaving all other indices unchanged. -/
def removeNode (g : Database) (i : Nat) : Database :=
  { nodes := g.nodes.set i none
    edges := clearIncident g.edges i
    freeNodes := i :: g.freeNodes
    freeEdges := freedEdgeIndices g.edges i ++ g.freeEdges
    task_id_to_index := g.task_id_to_index }

/-- `Database::add_task`: add the node and record its index in the cache. -/
def add_task (g : Database) (t : Task) : Database :=
  let p := addNode g t
  { p.1 with task_id_to_index := insertAssoc p.1.task_id_to_index t.id p.2 }

/-- `Database::remove_task`: drop the cache entry, then resolve the id
(necessarily via the fallback scan) and remove the node if it was found;
"If the given task id was not found, no changes are made." -/
def remove_task (g : Database) (tid : String) : Database :=
  let g1 := { g with task_id_to_index := removeAssoc g.task_id_to_index tid }
  match get_node_index g1 tid with
  | none => g1
  | some i => removeNode g1 i

/-- `Database::get_all_tasks`: the node weights, in storage order. -/
def get_all_tasks (g : Database) : List Task :=
  g.nodes.filterMap id

/-- `Database::add_dependency`: resolve both ids (panicking — `none` — via
`expect` when a lookup fails) and insert the directed edge `from → to`. -/
def add_dependency (g : Database) (a b : String) : Option Database :=
  match get_node_index g a, get_node_index g b with
  | some i, some j => add_edge g i j
  | _, _ => none

/-- Resolving each element of a list of lookups, propagating a panic
(`none`) if any single lookup failed (the `&self.graph[index]` accesses). -/
def optionList : List (Option α) → Option (List α)
  | [] => some []
  | none :: _ => none
  | some a :: rest => (optionList rest).map (fun l => a :: l)

/-- `Database::get_dependencies`: the tasks the given task points to
(outgoing edges); panics (`none`) if the source id does not resolve. -/
def get_dependencies (g : Database) (source : String) : Option (List Task) :=
  match get_node_index g source with
  | none => none
  | some i =>
    optionList (((occupiedEdges g).filter (fun e => e.1 == i)).map
      (fun e => taskAt g.nodes e.2))

/-- `Database::get_inverse_dependencies`: the tasks pointing to the given
task (incoming edges); panics (`none`) if the target id does not resolve. -/
def get_inverse_dependencies (g : Database) (target : String) : Option (List Task) :=
  match get_node_index g target with
  | none => none
  | some j =>
    optionList (((occupiedEdges g).filter (fun e => e.2 == j)).map
      (fun e => taskAt g.nodes e.1))

/-- The `Index<&TaskId>` impl: resolve an id to its task, panicking
(`none`) when the id does not resolve. -/
def indexById (g : Database) (tid : String) : Option Task :=
  (get_node_index g tid).bind (taskAt g.nodes)

/-! ## Disk model (`td-lib/src/database/v1/file_model.rs`) -/

/-- One on-disk task record: the task plus the ids it depends on. -/
structure TaskDiskModel where
  dependencies : List String
  task : Task
deriving DecidableEq, Repr

/-- The on-disk database model: a flat, order-preserving task list. -/
structure DatabaseDiskModel where
  tasks : List TaskDiskModel
deriving DecidableEq, Repr

/-- The node-collection loop of `From<Database> for DatabaseDiskModel`:
one `(node_idx, record)` pair per live node, in index order, each record
starting with an empty dependency list (`TaskDiskModel::new`). -/
def collectNodes : List (Option Task) → Nat → List (Nat × TaskDiskModel)
  | [], _ => []
  | some t :: rest, i => (i, ⟨[], t⟩) :: collectNodes rest (i + 1)
  | none :: rest, i => collectNodes rest (i + 1)

/-- Appending a dependency id to the record of the start node (the
`iter_mut().find(...)` followed by `dependencies.push(end_id)`). -/
def pushDep : List (Nat × TaskDiskModel) → Nat → String → List (Nat × TaskDiskModel)
  | [], _, _ => []
  | x :: xs, s, d =>
    if x.1 == s then (x.1, ⟨x.2.dependencies ++ [d], x.2.task⟩) :: xs
    else x :: pushDep xs s d

/-- The edge-collection loop of `From<Database> for DatabaseDiskModel`:
for each live edge, find the end node's record (panic — `none` — if
absent), take its task id, and push it onto the start node's record
(again panicking if that record is absent). -/
def collectDiskEdges : List (Nat × TaskDiskModel) → List (Nat × Nat) → Option (List (Nat × TaskDiskModel))
  | list, [] => some list
  | list, e :: es =>
    match (list.find? (fun x => x.1 == e.2)).map (fun x => x.2.task.id) with
    | none => none
    | some endId =>
      if list.any (fun x => x.1 == e.1) then collectDiskEdges (pushDep list e.1 endId) es
      else none

/-- `From<Database> for DatabaseDiskModel` (`to_disk_model`): collect the
nodes, then fold the live edges into per-record dependency lists. -/
def to_disk_model (g : Database) : Option DatabaseDiskModel :=
  (collectDiskEdges (collectNodes g.nodes 0) (occupiedEdges g)).map
    (fun list => ⟨list.map (fun x => x.2)⟩)

/-- The id→index map built while storing nodes in
`From<DatabaseDiskModel> for Database`: records are added to a fresh graph
in input order (indices `base`, `base+1`, …), each insert overwriting any
earlier binding of the same id. -/
def buildIdMap : List (String × Nat) → List TaskDiskModel → Nat → List (String × Nat)
  | m, [], _ => m
  | m, r :: rs, i => buildIdMap (insertAssoc m r.task.id i) rs (i + 1)

/-- One edge of the disk model: look up the record's own id and the
dependency id in the id map (`id_index_map[..]`, panicking — `none` — on a
missing key), then check the endpoints as petgraph `add_edge` does. -/
def perDepEdge (idMap : List (String × Nat)) (n : Nat) (r : TaskDiskModel) (d : String) :
    Option (Nat × Nat) :=
  match lookupAssoc idMap r.task.id, lookupAssoc idMap d with
  | some si, some ti => if si < n && ti < n then some (si, ti) else none
  | _, _ => none

/-- The edges contributed by one record, in dependency-list order. -/
def diskEdgesFor (idMap : List (String × Nat)) (n : Nat) (r : TaskDiskModel) :
    Option (List (Nat × Nat)) :=
  optionList (r.dependencies.map (fun d => perDepEdge idMap n r d))

/-- The edge-storing loop of `From<DatabaseDiskModel> for Database`, over
records in input order. -/
def allDiskEdges (idMap : List (String × Nat)) (n : Nat) : List TaskDiskModel → Option (List (Nat × Nat))
  | [] => some []
  | r :: rs =>
    match diskEdgesFor idMap n r, allDiskEdges idMap n rs with
    | some es, some rest => some (es ++ rest)
    | _, _ => none

/-- `From<DatabaseDiskModel> for Database` (`from_disk_model`): store one
node per record in order in a fresh graph, then resolve every dependency id
through the id map and insert the edges; a missing dependency id panics
(`none`). The id map becomes the new `task_id_to_index`. -/
def from_disk_model (m : DatabaseDiskModel) : Option Database :=
  let idMap := buildIdMap [] m.tasks 0
  (allDiskEdges idMap m.tasks.length m.tasks).map (fun es =>
    { nodes := m.tasks.map (fun r => some r.task)
      edges := es.map some
      freeNodes := []
      freeEdges := []
      task_id_to_index := idMap })

/-! ## Versioned file (`database_file.rs`, `errors/mod.rs`) -/

/-- `DatabaseReadError` from `td-lib/src/errors/mod.rs`. -/
inductive DatabaseReadError
  | unknownVersion (v : Nat)
  | jsonError
  | ioError
deriving DecidableEq, Repr

/-- The observable outcome of loading a parsed envelope: a database, a
typed recoverable `DatabaseReadError`, or a process-aborting panic. -/
inductive LoadOutcome
  | ok (db : Database)
  | err (e : DatabaseReadError)
  | panic
deriving DecidableEq, Repr

/-- `DatabaseFile`: the `{version, data}` envelope. The `serde_json::Value`
payload is modelled by the result of attempting to parse it as the
version-1 disk model (`none` = malformed, a `serde_json::Error`). -/
structure DatabaseFile where
  version : Nat
  data : Option DatabaseDiskModel
deriving DecidableEq, Repr

/-- Decoding the version-1 payload: `serde_json::from_value` parses the
disk model (a failure is a typed `JsonError`) and then converts it with
`From<DatabaseDiskModel> for Database`, whose unresolved-id failure mode
is a panic. -/
def decodeV1Payload : Option DatabaseDiskModel → LoadOutcome
  | none => .err .jsonError
  | some m =>
    match from_disk_model m with
    | some db => .ok db
    | none => .panic

/-- `TryInto<Database> for DatabaseFile`: reject any version other than 1
with `UnknownVersion`, otherwise decode the payload as the v1 model. -/
def tryIntoDatabase (f : DatabaseFile) : LoadOutcome :=
  if f.version != 1 then .err (.unknownVersion f.version)
  else decodeV1Payload f.data

/-! ## Undo wrapper (`td-util/src/undo.rs`)

`UndoWrapper` keeps the Rust structure's invariant — the history is
non-empty and `current_index` is in range, guaranteed by field privacy and
upheld by every method — as a proof field, so that `state()` is total
exactly as in the source. -/

structure UndoWrapper (T : Type) where
  states : List T
  current_index : Nat
  clean_index : Option Nat
  hlt : current_index < states.length

namespace UndoWrapper

variable {T : Type}

/-- `UndoWrapper::new`: a single-state history with an unset clean index. -/
def new (initial_state : T) : UndoWrapper T :=
  ⟨[initial_state], 0, none, by simp⟩

/-- `UndoWrapper::state`: the snapshot at `current_index`. -/
def state (w : UndoWrapper T) : T :=
  w.states.get ⟨w.current_index, w.hlt⟩

/-- `UndoWrapper::clear_redo_states`: truncate the history after the
cursor and drop the clean index if it pointed into the discarded tail. -/
def clearRedoStates (w : UndoWrapper T) : UndoWrapper T :=
  ⟨w.states.take (w.current_index + 1), w.current_index,
    match w.clean_index with
    | some ci => if w.current_index < ci then none else some ci
    | none => none,
    by
      have := w.hlt
      simp [List.length_take]
      omega⟩

/-- `UndoWrapper::modify`: clear the redo states, push a clone of the
current state and advance the cursor onto it, then mutate it in place.
After `clearRedoStates` the cursor sits on the last slot, so pushing the
clone and mutating it appends `f` of the current state. -/
def modify (w : UndoWrapper T) (f : T → T) : UndoWrapper T :=
  let w1 := clearRedoStates w
  ⟨w1.states ++ [f w1.state], w1.current_index + 1, w1.clean_index,
    by
      have h1 := w1.hlt
      have h2 : w1.current_index + 1 = w1.states.length := by
        show w.current_index + 1 = (w.states.take (w.current_index + 1)).length
        have := w.hlt
        simp [List.length_take]
        omega
      simp [List.length_append]
      omega⟩

/-- `UndoWrapper::undo`: move the cursor back one state if possible,
returning whether it moved. -/
def undo (w : UndoWrapper T) : UndoWrapper T × Bool :=
  if h : 0 < w.current_index then
    (⟨w.states, w.current_index - 1, w.clean_index, by have := w.hlt; omega⟩, true)
  else (w, false)

/-- `UndoWrapper::undo_count`. -/
def undo_count (w : UndoWrapper T) : Nat :=
  w.current_index

/-- `UndoWrapper::redo`: move the cursor forward one state if a later
state exists, returning whether it moved. -/
def redo (w : UndoWrapper T) : UndoWrapper T × Bool :=
  if h : w.current_index < w.states.length - 1 then
    (⟨w.states, w.current_index + 1, w.clean_index, by have := w.hlt; omega⟩, true)
  else (w, false)

/-- `UndoWrapper::redo_count`. -/
def redo_count (w : UndoWrapper T) : Nat :=
  w.states.length - 1 - w.current_index

/-- `UndoWrapper::mark_clean`. -/
def mark_clean (w : UndoWrapper T) : UndoWrapper T :=
  ⟨w.states, w.current_index, some w.current_index, w.hlt⟩

/-- `UndoWrapper::is_dirty`: true unless the clean index equals the
current index. -/
def is_dirty (w : UndoWrapper T) : Bool :=
  w.clean_index != some w.current_index

end UndoWrapper

/-- One call against the undo wrapper's public mutating API. -/
inductive UndoOp (T : Type)
  | modify (f : T → T)
  | undo
  | redo
  | markClean

/-- Running one public call (the returned booleans of `undo`/`redo` are
discarded). -/
def applyOp (w : UndoWrapper T) (op : UndoOp T) : UndoWrapper T :=
  match op with
  | .modify f => w.modify f
  | .undo => w.undo.1
  | .redo => w.redo.1
  | .markClean => w.mark_clean

/-- Running a sequence of public calls, oldest first. -/
def applyOps (w : UndoWrapper T) (ops : List (UndoOp T)) : UndoWrapper T :=
  ops.foldl applyOp w

/-- `n` consecutive `modify` calls. -/
def modifyMany (w : UndoWrapper T) (fs : List (T → T)) : UndoWrapper T :=
  fs.foldl UndoWrapper.modify w

/-- `k` consecutive `undo` calls. -/
def undoMany (w : UndoWrapper T) : Nat → UndoWrapper T
  | 0 => w
  | k + 1 => undoMany w.undo.1 k

/-- A sequence consisting only of `undo`/`redo` navigation. -/
def isNavOnly (ops : List (UndoOp T)) : Bool :=
  ops.all (fun op =>
    match op with
    | .undo => true
    | .redo => true
    | _ => false)

/-- A sequence that never calls `mark_clean`. -/
def noMarkClean (ops : List (UndoOp T)) : Bool :=
  ops.all (fun op =>
    match op with
    | .markClean => false
    | _ => true)

/-! ## Observations of the store -/

/-- The ids of all live tasks, in storage order. -/
def taskIds (g : Database) : List String :=
  (get_all_tasks g).map Task.id

/-- Resolution of an id to the task record carrying it (first in storage
order). -/
def taskById (g : Database) (tid : String) : Option Task :=
  (get_all_tasks g).find? (fun t => t.id == tid)

/-- The dependency relation, as ordered pairs of task ids. -/
def idPairs (g : Database) : List (String × String) :=
  (occupiedEdges g).filterMap (fun e =>
    match taskAt g.nodes e.1, taskAt g.nodes e.2 with
    | some a, some b => some (a.id, b.id)
    | _, _ => none)

/-- The store invariant maintained by the public operations: every cache
entry names a live node carrying that id, every live edge joins live
nodes, and the free lists hold exactly vacant in-range slots, without
duplicates. -/
def WellFormed (g : Database) : Prop :=
  (∀ p ∈ g.task_id_to_index, (taskAt g.nodes p.2).map Task.id = some p.1) ∧
  (∀ e ∈ occupiedEdges g, (taskAt g.nodes e.1).isSome = true ∧ (taskAt g.nodes e.2).isSome = true) ∧
  (∀ i ∈ g.freeNodes, g.nodes[i]? = some none) ∧
  g.freeNodes.Nodup ∧
  (∀ k ∈ g.freeEdges, g.edges[k]? = some none) ∧
  g.freeEdges.Nodup

instance (g : Database) : Decidable (WellFormed g) := by
  unfold WellFormed
  infer_instance

/-- The graphs reachable purely through the public store operations. -/
inductive Built : Database → Prop
  | empty : Built emptyDatabase
  | addTask {g : Database} (t : Task) : Built g → Built (add_task g t)
  | removeTask {g : Database} (tid : String) : Built g → Built (remove_task g tid)
  | addDep {g g' : Database} (a b : String) :
      Built g → add_dependency g a b = some g' → Built g'

/-! ## Association-list (id cache) lemmas -/

theorem lookupAssoc_mem {m : List (String × Nat)} {k : String} {i : Nat}
    (h : lookupAssoc m k = some i) : (k, i) ∈ m := by
  unfold lookupAssoc at h
  cases hf : m.find? (fun p => p.1 == k) with
  | none => simp [hf] at h
  | some p =>
    have hmem := List.mem_of_find?_eq_some hf
    have hpred := List.find?_some hf
    simp [hf] at h
    simp at hpred
    cases p with
    | mk a b => simp_all

theorem find?_removeAssoc {m : List (String × Nat)} {k k' : String} (h : k' ≠ k) :
    (removeAssoc m k).find? (fun p => p.1 == k') = m.find? (fun p => p.1 == k') := by
  unfold removeAssoc
  induction m with
  | nil => rfl
  | cons p rest ih =>
    rw [List.filter_cons]
    by_cases hp : p.1 = k
    · have hpk' : ((p.1 : String) == k') = false := by
        rw [beq_eq_false_iff_ne, hp]
        exact fun hh => h hh.symm
      have hfil : (!((p.1 : String) == k)) = false := by simp [hp]
      rw [hfil]
      simp only [Bool.false_eq_true, if_false]
      rw [List.find?_cons_of_neg _ (by simp [hpk'])]
      exact ih
    · have hfil : (!((p.1 : String) == k)) = true := by simp [hp]
      rw [hfil, if_pos rfl]
      by_cases hp' : p.1 = k'
      · rw [List.find?_cons_of_pos _ (by simp [hp']), List.find?_cons_of_pos _ (by simp [hp'])]
      · rw [List.find?_cons_of_neg _ (by simp [hp']), List.find?_cons_of_neg _ (by simp [hp'])]
        exact ih

theorem lookupAssoc_remove_ne {m : List (String × Nat)} {k k' : String}
    (h : k' ≠ k) : lookupAssoc (removeAssoc m k) k' = lookupAssoc m k' := by
  unfold lookupAssoc
  rw [find?_removeAssoc h]

theorem mem_removeAssoc {m : List (String × Nat)} {k : String} {p : String × Nat}
    (h : p ∈ removeAssoc m k) : p ∈ m ∧ p.1 ≠ k := by
  unfold removeAssoc at h
  have := List.of_mem_filter h
  refine ⟨List.mem_of_mem_filter h, ?_⟩
  simpa using this

theorem lookupAssoc_insert_self (m : List (String × Nat)) (k : String) (v : Nat) :
    lookupAssoc (insertAssoc m k v) k = some v := by
  unfold insertAssoc lookupAssoc
  rw [List.find?_cons_of_pos _ (by simp)]
  rfl

theorem lookupAssoc_insert_ne {m : List (String × Nat)} {k k' : String} (v : Nat)
    (h : k' ≠ k) : lookupAssoc (insertAssoc m k v) k' = lookupAssoc m k' := by
  unfold insertAssoc lookupAssoc
  rw [List.find?_cons_of_neg _ (by simp; exact fun hh => h hh.symm)]
  rw [find?_removeAssoc h]

/-! ## Slot-arena lemmas -/

theorem taskAt_lt {nodes : List (Option Task)} {i : Nat} {t : Task}
    (h : taskAt nodes i = some t) : i < nodes.length := by
  unfold taskAt at h
  cases hg : nodes[i]? with
  | none => simp [hg] at h
  | some v => exact (List.getElem?_eq_some_iff.mp hg).1

theorem taskAt_set_ne {nodes : List (Option Task)} {i j : Nat} (v : Option Task)
    (h : j ≠ i) : taskAt (nodes.set i v) j = taskAt nodes j := by
  unfold taskAt
  rw [List.getElem?_set_ne (fun hh => h hh.symm)]

theorem taskAt_set_self {nodes : List (Option Task)} {i : Nat} (v : Option Task)
    (h : i < nodes.length) : taskAt (nodes.set i v) i = v := by
  unfold taskAt
  rw [List.getElem?_set_self h]
  cases v <;> rfl

theorem taskAt_append_left {nodes : List (Option Task)} {j : Nat} (x : Option Task)
    (h : j < nodes.length) : taskAt (nodes ++ [x]) j = taskAt nodes j := by
  unfold taskAt
  rw [List.getElem?_append, if_pos h]

theorem taskAt_append_right (nodes : List (Option Task)) (x : Option Task) :
    taskAt (nodes ++ [x]) nodes.length = x := by
  unfold taskAt
  have hx : (nodes ++ [x])[nodes.length]? = some x := by
    rw [List.getElem?_append_right (Nat.le_refl _)]
    simp
  rw [hx]
  cases x <;> rfl

theorem taskAt_cons_zero (x : Option Task) (rest : List (Option Task)) :
    taskAt (x :: rest) 0 = x := by
  unfold taskAt
  rw [List.getElem?_cons_zero]
  cases x <;> rfl

theorem taskAt_cons_succ (x : Option Task) (rest : List (Option Task)) (k : Nat) :
    taskAt (x :: rest) (k + 1) = taskAt rest k := by
  unfold taskAt
  rw [List.getElem?_cons_succ]

/-! ## Fallback-scan lemmas -/

theorem scanFrom_some {nodes : List (Option Task)} {base i : Nat} {tid : String}
    (h : scanFrom nodes base tid = some i) :
    ∃ t, base ≤ i ∧ taskAt nodes (i - base) = some t ∧ t.id = tid := by
  induction nodes generalizing base with
  | nil => simp [scanFrom] at h
  | cons x rest ih =>
    cases x with
    | some t =>
      rw [scanFrom] at h
      by_cases ht : t.id = tid
      · rw [if_pos (by simp [ht])] at h
        cases h
        exact ⟨t, Nat.le_refl _, by simp [taskAt_cons_zero], ht⟩
      · rw [if_neg (by simp [ht])] at h
        obtain ⟨t', hle, hat, hid⟩ := ih h
        refine ⟨t', by omega, ?_, hid⟩
        have hib : i - base = (i - (base + 1)) + 1 := by omega
        rw [hib, taskAt_cons_succ]
        exact hat
    | none =>
      rw [scanFrom] at h
      obtain ⟨t', hle, hat, hid⟩ := ih h
      refine ⟨t', by omega, ?_, hid⟩
      have hib : i - base = (i - (base + 1)) + 1 := by omega
      rw [hib, taskAt_cons_succ]
      exact hat

theorem scanFrom_none_iff {nodes : List (Option Task)} {base : Nat} {tid : String} :
    scanFrom nodes base tid = none ↔ ∀ t ∈ nodes.filterMap id, t.id ≠ tid := by
  induction nodes generalizing base with
  | nil => simp [scanFrom]
  | cons x rest ih =>
    cases x with
    | some t =>
      rw [scanFrom]
      by_cases ht : t.id = tid
      · rw [if_pos (by simp [ht])]
        simp [ht]
      · rw [if_neg (by simp [ht])]
        simp only [List.filterMap_cons, id]
        rw [ih]
        simp [ht]
    | none =>
      rw [scanFrom]
      simp only [List.filterMap_cons, id]
      exact ih

theorem scanFrom_set_none {nodes : List (Option Task)} {i : Nat} {t : Task} {tid : String}
    (hat : taskAt nodes i = some t) (hne : t.id ≠ tid) (base : Nat) :
    scanFrom (nodes.set i none) base tid = scanFrom nodes base tid := by
  induction nodes generalizing i base with
  | nil => simp
  | cons x rest ih =>
    cases i with
    | zero =>
      rw [taskAt_cons_zero] at hat
      subst hat
      rw [List.set_cons_zero, scanFrom, scanFrom, if_neg (by simp [hne])]
    | succ k =>
      rw [taskAt_cons_succ] at hat
      rw [List.set_cons_succ]
      cases x with
      | some u =>
        rw [scanFrom, scanFrom]
        by_cases hu : u.id = tid
        · rw [if_pos (by simp [hu]), if_pos (by simp [hu])]
        · rw [if_neg (by simp [hu]), if_neg (by simp [hu])]
          exact ih hat _
      | none =>
        rw [scanFrom, scanFrom]
        exact ih hat _

/-! ## Edge-arena lemmas -/

theorem filterMap_clearIncident (es : List (Option (Nat × Nat))) (i : Nat) :
    (clearIncident es i).filterMap id =
      (es.filterMap id).filter (fun e => !(e.1 == i) && !(e.2 == i)) := by
  induction es with
  | nil => rfl
  | cons x rest ih =>
    cases x with
    | none =>
      simp only [clearIncident, List.map_cons, List.filterMap_cons] at *
      exact ih
    | some e =>
      obtain ⟨s, t⟩ := e
      simp only [clearIncident, List.map_cons, List.filterMap_cons] at *
      by_cases hs : s = i
      · simp only [id]
        rw [if_pos (by simp [hs])]
        simp only [List.filterMap_cons, id, List.filter_cons]
        rw [show ((!((s, t).1 == i) && !((s, t).2 == i)) = false) by simp [hs]]
        simp only [Bool.false_eq_true, if_false]
        exact ih
      · by_cases ht : t = i
        · simp only [id]
          rw [if_pos (by simp [ht])]
          simp only [List.filterMap_cons, id, List.filter_cons]
          rw [show ((!((s, t).1 == i) && !((s, t).2 == i)) = false) by simp [ht]]
          simp only [Bool.false_eq_true, if_false]
          exact ih
        · simp only [id]
          rw [if_neg (by simp [hs, ht])]
          simp only [List.filterMap_cons, id, List.filter_cons]
          rw [show ((!((s, t).1 == i) && !((s, t).2 == i)) = true) by simp [hs, ht]]
          rw [if_pos rfl]
          rw [ih]

theorem filterMap_set_vacant {es : List (Option (Nat × Nat))} {k : Nat}
    (h : es[k]? = some none) (e : Nat × Nat) :
    ((es.set k (some e)).filterMap id).Perm (e :: es.filterMap id) := by
  induction es generalizing k with
  | nil => simp at h
  | cons x rest ih =>
    cases k with
    | zero =>
      simp at h
      subst h
      rw [List.set_cons_zero]
      simp only [List.filterMap_cons, id]
      exact List.Perm.refl _
    | succ k' =>
      simp only [List.getElem?_cons_succ] at h
      rw [List.set_cons_succ]
      cases x with
      | none =>
        simp only [List.filterMap_cons, id]
        exact ih h
      | some y =>
        simp only [List.filterMap_cons, id]
        exact ((ih h).cons y).trans (List.Perm.swap e y _)

theorem filterMap_append_single (es : List (Option (Nat × Nat))) (e : Nat × Nat) :
    ((es ++ [some e]).filterMap id).Perm (e :: es.filterMap id) := by
  rw [List.filterMap_append]
  simp only [List.filterMap_cons, List.filterMap_nil, id]
  exact List.perm_append_singleton _ _

theorem addEdgeRaw_nodes (g : Database) (s t : Nat) : (addEdgeRaw g s t).nodes = g.nodes := by
  unfold addEdgeRaw
  cases g.freeEdges <;> rfl

theorem addEdgeRaw_cache (g : Database) (s t : Nat) :
    (addEdgeRaw g s t).task_id_to_index = g.task_id_to_index := by
  unfold addEdgeRaw
  cases g.freeEdges <;> rfl

theorem addEdgeRaw_freeNodes (g : Database) (s t : Nat) :
    (addEdgeRaw g s t).freeNodes = g.freeNodes := by
  unfold addEdgeRaw
  cases g.freeEdges <;> rfl

theorem occupiedEdges_addEdgeRaw {g : Database}
    (hfree : ∀ k ∈ g.freeEdges, g.edges[k]? = some none) (s t : Nat) :
    (occupiedEdges (addEdgeRaw g s t)).Perm ((s, t) :: occupiedEdges g) := by
  unfold addEdgeRaw occupiedEdges
  cases hf : g.freeEdges with
  | nil => exact filterMap_append_single g.edges (s, t)
  | cons k rest =>
    have hk : g.edges[k]? = some none := hfree k (by rw [hf]; exact List.mem_cons_self _ _)
    exact filterMap_set_vacant hk (s, t)

theorem getElem?_clearIncident (es : List (Option (Nat × Nat))) (i k : Nat) :
    (clearIncident es i)[k]? = es[k]?.map (fun e =>
      match e with
      | some (s, t) => if s == i || t == i then none else some (s, t)
      | none => none) := by
  unfold clearIncident
  rw [List.getElem?_map]

theorem mem_freedEdgeIndices {es : List (Option (Nat × Nat))} {i k : Nat}
    (h : k ∈ freedEdgeIndices es i) :
    ∃ s t, es[k]? = some (some (s, t)) ∧ (s = i ∨ t = i) := by
  unfold freedEdgeIndices at h
  have hmem := List.mem_of_mem_filter h
  have hpred := List.of_mem_filter h
  cases hk : es[k]? with
  | none => rw [hk] at hpred; simp at hpred
  | some e =>
    cases e with
    | none => rw [hk] at hpred; simp at hpred
    | some st =>
      obtain ⟨s, t⟩ := st
      rw [hk] at hpred
      simp at hpred
      exact ⟨s, t, rfl, hpred⟩

theorem nodup_freedEdgeIndices (es : List (Option (Nat × Nat))) (i : Nat) :
    (freedEdgeIndices es i).Nodup :=
  (List.nodup_range _).filter _

/-! ## Preservation of the store invariant -/

theorem add_task_eq_cons {g : Database} {t : Task} {i : Nat} {rest : List Nat}
    (h : g.freeNodes = i :: rest) :
    add_task g t = ⟨g.nodes.set i (some t), g.edges, rest, g.freeEdges,
      insertAssoc g.task_id_to_index t.id i⟩ := by
  unfold add_task addNode
  rw [h]

theorem add_task_eq_nil {g : Database} {t : Task} (h : g.freeNodes = []) :
    add_task g t = ⟨g.nodes ++ [some t], g.edges, [], g.freeEdges,
      insertAssoc g.task_id_to_index t.id g.nodes.length⟩ := by
  unfold add_task addNode
  rw [h]

theorem remove_task_eq (g : Database) (tid : String) :
    remove_task g tid =
      match get_node_index { g with task_id_to_index := removeAssoc g.task_id_to_index tid } tid with
      | none => { g with task_id_to_index := removeAssoc g.task_id_to_index tid }
      | some i => removeNode { g with task_id_to_index := removeAssoc g.task_id_to_index tid } i := rfl

theorem wellFormed_empty : WellFormed emptyDatabase := by
  refine ⟨?_, ?_, ?_, ?_, ?_, ?_⟩ <;> simp [emptyDatabase, occupiedEdges, List.Nodup]

theorem wellFormed_add_task {g : Database} (hwf : WellFormed g) (t : Task) :
    WellFormed (add_task g t) := by
  obtain ⟨hc, he, hfn, hfnd, hfe, hfed⟩ := hwf
  cases hfree : g.freeNodes with
  | cons i rest =>
    rw [add_task_eq_cons hfree]
    have hvac : g.nodes[i]? = some none := hfn i (by rw [hfree]; exact List.mem_cons_self _ _)
    have hilt : i < g.nodes.length := (List.getElem?_eq_some_iff.mp hvac).1
    have hvac' : taskAt g.nodes i = none := by unfold taskAt; rw [hvac]; rfl
    refine ⟨?_, ?_, ?_, ?_, hfe, hfed⟩
    · intro p hp
      rcases List.mem_cons.mp hp with hh | hh
      · subst hh
        show (taskAt (g.nodes.set i (some t)) i).map Task.id = some t.id
        rw [taskAt_set_self _ hilt]
        rfl
      · obtain ⟨hpm, hpne⟩ := mem_removeAssoc hh
        have hold := hc p hpm
        have hne : p.2 ≠ i := by
          intro hh2
          rw [hh2, hvac'] at hold
          simp at hold
        show (taskAt (g.nodes.set i (some t)) p.2).map Task.id = some p.1
        rw [taskAt_set_ne _ hne]
        exact hold
    · intro e hemem
      have hee := he e hemem
      constructor
      · by_cases h1 : e.1 = i
        · show (taskAt (g.nodes.set i (some t)) e.1).isSome = true
          rw [h1, taskAt_set_self _ hilt]
          rfl
        · show (taskAt (g.nodes.set i (some t)) e.1).isSome = true
          rw [taskAt_set_ne _ h1]
          exact hee.1
      · by_cases h2 : e.2 = i
        · show (taskAt (g.nodes.set i (some t)) e.2).isSome = true
          rw [h2, taskAt_set_self _ hilt]
          rfl
        · show (taskAt (g.nodes.set i (some t)) e.2).isSome = true
          rw [taskAt_set_ne _ h2]
          exact hee.2
    · intro j hj
      have hjmem : j ∈ g.freeNodes := by rw [hfree]; exact List.mem_cons_of_mem _ hj
      have hji : j ≠ i := by
        intro hh
        rw [hfree] at hfnd
        exact (List.nodup_cons.mp hfnd).1 (hh ▸ hj)
      show (g.nodes.set i (some t))[j]? = some none
      rw [List.getElem?_set_ne (fun hh => hji hh.symm)]
      exact hfn j hjmem
    · rw [hfree] at hfnd
      exact (List.nodup_cons.mp hfnd).2
  | nil =>
    rw [add_task_eq_nil hfree]
    refine ⟨?_, ?_, ?_, ?_, hfe, hfed⟩
    · intro p hp
      rcases List.mem_cons.mp hp with hh | hh
      · subst hh
        show (taskAt (g.nodes ++ [some t]) g.nodes.length).map Task.id = some t.id
        rw [taskAt_append_right]
        rfl
      · obtain ⟨hpm, hpne⟩ := mem_removeAssoc hh
        have hold := hc p hpm
        have hsome : (taskAt g.nodes p.2).isSome = true := by
          cases hx : taskAt g.nodes p.2
          · rw [hx] at hold; simp at hold
          · rfl
        obtain ⟨u, hu⟩ := Option.isSome_iff_exists.mp hsome
        have hlt := taskAt_lt hu
        show (taskAt (g.nodes ++ [some t]) p.2).map Task.id = some p.1
        rw [taskAt_append_left _ hlt]
        exact hold
    · intro e hemem
      have hee := he e hemem
      obtain ⟨u1, hu1⟩ := Option.isSome_iff_exists.mp hee.1
      obtain ⟨u2, hu2⟩ := Option.isSome_iff_exists.mp hee.2
      constructor
      · show (taskAt (g.nodes ++ [some t]) e.1).isSome = true
        rw [taskAt_append_left _ (taskAt_lt hu1), hu1]
        rfl
      · show (taskAt (g.nodes ++ [some t]) e.2).isSome = true
        rw [taskAt_append_left _ (taskAt_lt hu2), hu2]
        rfl
    · intro j hj
      simp at hj
    · exact List.nodup_nil

theorem wellFormed_removeAssoc {g : Database} (hwf : WellFormed g) (tid : String) :
    WellFormed { g with task_id_to_index := removeAssoc g.task_id_to_index tid } := by
  obtain ⟨hc, he, hfn, hfnd, hfe, hfed⟩ := hwf
  exact ⟨fun p hp => hc p (mem_removeAssoc hp).1, he, hfn, hfnd, hfe, hfed⟩

theorem lookupAssoc_remove_self (m : List (String × Nat)) (k : String) :
    lookupAssoc (removeAssoc m k) k = none := by
  have h1 : (removeAssoc m k).find? (fun p => p.1 == k) = none :=
    List.find?_eq_none.mpr (fun p hp => by simpa using (mem_removeAssoc hp).2)
  unfold lookupAssoc
  rw [h1]
  rfl

theorem wellFormed_remove_task {g : Database} (hwf : WellFormed g) (tid : String) :
    WellFormed (remove_task g tid) := by
  have hwf1 := wellFormed_removeAssoc hwf tid
  rw [remove_task_eq]
  cases hres : get_node_index { g with task_id_to_index := removeAssoc g.task_id_to_index tid } tid with
  | none => exact hwf1
  | some i =>
    obtain ⟨hc, he, hfn, hfnd, hfe, hfed⟩ := hwf1
    dsimp only at hc he hfn hfnd hfe hfed
    unfold get_node_index at hres
    dsimp only at hres
    rw [show lookupAssoc (removeAssoc g.task_id_to_index tid) tid = none from
      lookupAssoc_remove_self _ _] at hres
    dsimp only at hres
    have hscan := scanFrom_some hres
    rw [Nat.sub_zero] at hscan
    obtain ⟨t0, _, hat0, hid0⟩ := hscan
    have hilt : i < g.nodes.length := taskAt_lt hat0
    show WellFormed ⟨g.nodes.set i none, clearIncident g.edges i, i :: g.freeNodes,
      freedEdgeIndices g.edges i ++ g.freeEdges, removeAssoc g.task_id_to_index tid⟩
    refine ⟨?_, ?_, ?_, ?_, ?_, ?_⟩
    · intro p hp
      have hold := hc p hp
      obtain ⟨hpm, hpne⟩ := mem_removeAssoc hp
      have hone : p.2 ≠ i := by
        intro hh
        rw [hh, hat0] at hold
        simp at hold
        exact hpne (hold ▸ hid0.symm ▸ rfl)
      show (taskAt (g.nodes.set i none) p.2).map Task.id = some p.1
      rw [taskAt_set_ne _ hone]
      exact hold
    · intro e hemem
      unfold occupiedEdges at hemem
      simp only at hemem
      rw [filterMap_clearIncident] at hemem
      have hmem2 := List.mem_of_mem_filter hemem
      have hpred := List.of_mem_filter hemem
      simp at hpred
      have hee := he e hmem2
      constructor
      · show (taskAt (g.nodes.set i none) e.1).isSome = true
        rw [taskAt_set_ne _ hpred.1]
        exact hee.1
      · show (taskAt (g.nodes.set i none) e.2).isSome = true
        rw [taskAt_set_ne _ hpred.2]
        exact hee.2
    · intro j hj
      rcases List.mem_cons.mp hj with hh | hh
      · subst hh
        show (g.nodes.set j none)[j]? = some none
        rw [List.getElem?_set_self hilt]
      · show (g.nodes.set i none)[j]? = some none
        have hji : j ≠ i := by
          intro hh2
          have := hfn j hh
          rw [hh2] at this
          unfold taskAt at hat0
          rw [this] at hat0
          simp at hat0
        rw [List.getElem?_set_ne (fun hh2 => hji hh2.symm)]
        exact hfn j hh
    · refine List.nodup_cons.mpr ⟨?_, hfnd⟩
      intro hmem
      have := hfn i hmem
      unfold taskAt at hat0
      rw [this] at hat0
      simp at hat0
    · intro k hk
      rcases List.mem_append.mp hk with hh | hh
      · obtain ⟨s, t, hkat, hor⟩ := mem_freedEdgeIndices hh
        show (clearIncident g.edges i)[k]? = some none
        rw [getElem?_clearIncident, hkat]
        rcases hor with hh2 | hh2 <;> simp [hh2]
      · show (clearIncident g.edges i)[k]? = some none
        rw [getElem?_clearIncident, hfe k hh]
        rfl
    · refine List.Nodup.append (nodup_freedEdgeIndices _ _) hfed ?_
      intro k hk1 hk2
      obtain ⟨s, t, hkat, _⟩ := mem_freedEdgeIndices hk1
      have := hfe k hk2
      rw [hkat] at this
      simp at this

theorem wellFormed_add_dependency {g g' : Database} {a b : String}
    (hwf : WellFormed g) (h : add_dependency g a b = some g') : WellFormed g' := by
  unfold add_dependency at h
  cases hia : get_node_index g a with
  | none => rw [hia] at h; exact absurd h (by simp)
  | some i =>
    cases hjb : get_node_index g b with
    | none => rw [hia, hjb] at h; exact absurd h (by simp)
    | some j =>
      rw [hia, hjb] at h
      dsimp only at h
      unfold add_edge at h
      by_cases hocc : (slotOccupied g.nodes i && slotOccupied g.nodes j) = true
      · rw [if_pos hocc] at h
        cases h
        obtain ⟨hc, he, hfn, hfnd, hfe, hfed⟩ := hwf
        have hocc1 : (taskAt g.nodes i).isSome = true := by
          have := (Bool.and_eq_true _ _).mp hocc
          exact this.1
        have hocc2 : (taskAt g.nodes j).isSome = true := by
          have := (Bool.and_eq_true _ _).mp hocc
          exact this.2
        refine ⟨?_, ?_, ?_, ?_, ?_, ?_⟩
        · intro p hp
          rw [addEdgeRaw_cache] at hp
          rw [addEdgeRaw_nodes]
          exact hc p hp
        · intro e hemem
          have hperm := occupiedEdges_addEdgeRaw hfe i j
          have := hperm.mem_iff.mp hemem
          rw [addEdgeRaw_nodes]
          rcases List.mem_cons.mp this with hh | hh
          · subst hh
            exact ⟨hocc1, hocc2⟩
          · exact he e hh
        · intro k hk
          rw [addEdgeRaw_freeNodes] at hk
          rw [addEdgeRaw_nodes]
          exact hfn k hk
        · rw [addEdgeRaw_freeNodes]
          exact hfnd
        · intro k hk
          unfold addEdgeRaw at hk
          unfold addEdgeRaw
          cases hfree : g.freeEdges with
          | nil =>
            rw [hfree] at hk
            simp at hk
          | cons k0 rest =>
            rw [hfree] at hk
            simp only at hk
            have hk0 : k ≠ k0 := by
              intro hh
              rw [hfree] at hfed
              exact (List.nodup_cons.mp hfed).1 (hh ▸ hk)
            dsimp only
            rw [List.getElem?_set_ne (fun hh => hk0 hh.symm)]
            exact hfe k (by rw [hfree]; exact List.mem_cons_of_mem _ hk)
        · unfold addEdgeRaw
          cases hfree : g.freeEdges with
          | nil =>
            dsimp only
            exact List.nodup_nil
          | cons k0 rest =>
            dsimp only
            rw [hfree] at hfed
            exact (List.nodup_cons.mp hfed).2
      · rw [if_neg hocc] at h
        exact absurd h (by simp)

/-- Every graph reachable through the public store operations satisfies
the store invariant. -/
theorem built_wellFormed {g : Database} (h : Built g) : WellFormed g := by
  induction h with
  | empty => exact wellFormed_empty
  | addTask t _ ih => exact wellFormed_add_task ih t
  | removeTask tid _ ih => exact wellFormed_remove_task ih tid
  | addDep a b _ hdep ih => exact wellFormed_add_dependency ih hdep

/-! ## Undo-wrapper lemmas -/

namespace UndoWrapper

variable {T : Type}

theorem clearRedoStates_current (w : UndoWrapper T) :
    (clearRedoStates w).current_index = w.current_index := rfl

theorem clearRedoStates_length (w : UndoWrapper T) :
    (clearRedoStates w).states.length = w.current_index + 1 := by
  have := w.hlt
  show (w.states.take (w.current_index + 1)).length = w.current_index + 1
  rw [List.length_take]
  omega

theorem clearRedoStates_clean (w : UndoWrapper T) :
    (clearRedoStates w).clean_index =
      match w.clean_index with
      | some ci => if w.current_index < ci then none else some ci
      | none => none := rfl

theorem modify_current (w : UndoWrapper T) (f : T → T) :
    (w.modify f).current_index = w.current_index + 1 := rfl

theorem modify_length (w : UndoWrapper T) (f : T → T) :
    (w.modify f).states.length = w.current_index + 2 := by
  show ((clearRedoStates w).states ++ [_]).length = w.current_index + 2
  rw [List.length_append, clearRedoStates_length]
  rfl

theorem modify_clean (w : UndoWrapper T) (f : T → T) :
    (w.modify f).clean_index =
      match w.clean_index with
      | some ci => if w.current_index < ci then none else some ci
      | none => none := rfl

theorem modify_redo_count (w : UndoWrapper T) (f : T → T) :
    (w.modify f).redo_count = 0 := by
  unfold redo_count
  rw [modify_length, modify_current]
  omega

theorem modify_is_dirty (w : UndoWrapper T) (f : T → T) :
    (w.modify f).is_dirty = true := by
  unfold is_dirty
  rw [modify_clean, modify_current]
  cases hc : w.clean_index with
  | none => simp
  | some ci =>
    by_cases h : w.current_index < ci
    · simp [h]
    · simp only [h, if_false]
      simp only [bne_iff_ne, ne_eq, Option.some_inj]
      omega

theorem undo_states (w : UndoWrapper T) : w.undo.1.states = w.states := by
  unfold undo
  split <;> rfl

theorem undo_clean (w : UndoWrapper T) : w.undo.1.clean_index = w.clean_index := by
  unfold undo
  split <;> rfl

theorem undo_current (w : UndoWrapper T) :
    w.undo.1.current_index = w.current_index - 1 := by
  unfold undo
  split
  · rfl
  · show w.current_index = w.current_index - 1
    omega

theorem undo_snd_iff (w : UndoWrapper T) : w.undo.2 = true ↔ 0 < w.current_index := by
  unfold undo
  split <;> simp_all

theorem redo_states (w : UndoWrapper T) : w.redo.1.states = w.states := by
  unfold redo
  split <;> rfl

theorem redo_clean (w : UndoWrapper T) : w.redo.1.clean_index = w.clean_index := by
  unfold redo
  split <;> rfl

theorem redo_current (w : UndoWrapper T) :
    w.redo.1.current_index =
      if w.current_index < w.states.length - 1 then w.current_index + 1
      else w.current_index := by
  unfold redo
  split <;> simp_all

theorem redo_snd_iff (w : UndoWrapper T) :
    w.redo.2 = true ↔ w.current_index < w.states.length - 1 := by
  unfold redo
  split <;> simp_all

theorem mark_clean_clean (w : UndoWrapper T) :
    (mark_clean w).clean_index = some w.current_index := rfl

theorem mark_clean_current (w : UndoWrapper T) :
    (mark_clean w).current_index = w.current_index := rfl

theorem mark_clean_is_dirty (w : UndoWrapper T) : (mark_clean w).is_dirty = false := by
  unfold is_dirty mark_clean
  simp

theorem state_congr {w w' : UndoWrapper T} (hs : w.states = w'.states)
    (hc : w.current_index = w'.current_index) : w.state = w'.state := by
  cases w with
  | mk s c cl h =>
    cases w' with
    | mk s' c' cl' h' =>
      dsimp at hs hc
      subst hs
      subst hc
      rfl

end UndoWrapper

theorem modifyMany_spec {T : Type} (fs : List (T → T)) :
    ∀ w : UndoWrapper T, w.current_index + 1 = w.states.length →
      (modifyMany w fs).current_index = w.current_index + fs.length ∧
      (modifyMany w fs).states.length = w.current_index + fs.length + 1 := by
  induction fs with
  | nil =>
    intro w hw
    refine ⟨rfl, ?_⟩
    show w.states.length = w.current_index + List.length [] + 1
    simp
    omega
  | cons f fs ih =>
    intro w hw
    have hstep : (w.modify f).current_index + 1 = (w.modify f).states.length := by
      rw [UndoWrapper.modify_current, UndoWrapper.modify_length]
    have := ih (w.modify f) hstep
    rw [UndoWrapper.modify_current] at this
    show (modifyMany (w.modify f) fs).current_index = _ ∧
      (modifyMany (w.modify f) fs).states.length = _
    rw [this.1, this.2]
    constructor <;> simp <;> omega

theorem undoMany_spec {T : Type} (k : Nat) :
    ∀ w : UndoWrapper T, k ≤ w.current_index →
      (undoMany w k).states = w.states ∧
      (undoMany w k).current_index = w.current_index - k ∧
      (undoMany w k).clean_index = w.clean_index := by
  induction k with
  | zero =>
    intro w _
    refine ⟨rfl, ?_, rfl⟩
    show w.current_index = w.current_index - 0
    omega
  | succ k' ih =>
    intro w hk
    have h1 : k' ≤ w.undo.1.current_index := by
      rw [UndoWrapper.undo_current]
      omega
    have := ih w.undo.1 h1
    show (undoMany w.undo.1 k').states = _ ∧ (undoMany w.undo.1 k').current_index = _ ∧
      (undoMany w.undo.1 k').clean_index = _
    rw [this.1, this.2.1, this.2.2, UndoWrapper.undo_states, UndoWrapper.undo_current,
      UndoWrapper.undo_clean]
    refine ⟨rfl, by omega, rfl⟩

/-- C4: starting from a fresh `UndoWrapper` over any initial state, after
`n` calls to `modify` the wrapper reports `undo_count() == n` and
`redo_count() == 0`; after `k ≤ n` subsequent consecutive `undo()` calls it
reports `undo_count() == n - k` and `redo_count() == k`; and one further
`modify()` call makes `redo_count() == 0` again, whatever the prior redo
count was. -/
theorem undo_redo_count_evolution (T : Type) (s : T) (fs : List (T → T)) (k : Nat)
    (hk : k ≤ fs.length) :
    (modifyMany (UndoWrapper.new s) fs).undo_count = fs.length ∧
    (modifyMany (UndoWrapper.new s) fs).redo_count = 0 ∧
    (undoMany (modifyMany (UndoWrapper.new s) fs) k).undo_count = fs.length - k ∧
    (undoMany (modifyMany (UndoWrapper.new s) fs) k).redo_count = k ∧
    ∀ f : T → T, ((undoMany (modifyMany (UndoWrapper.new s) fs) k).modify f).redo_count = 0 := by
  have hnew : (UndoWrapper.new s).current_index + 1 = (UndoWrapper.new s).states.length := rfl
  obtain ⟨hcur, hlen⟩ := modifyMany_spec fs (UndoWrapper.new s) hnew
  have hcur0 : (UndoWrapper.new s).current_index = 0 := rfl
  rw [hcur0] at hcur hlen
  simp only [Nat.zero_add] at hcur hlen
  have hk' : k ≤ (modifyMany (UndoWrapper.new s) fs).current_index := by rw [hcur]; exact hk
  obtain ⟨hus, huc, hucl⟩ := undoMany_spec k _ hk'
  refine ⟨?_, ?_, ?_, ?_, ?_⟩
  · show (modifyMany (UndoWrapper.new s) fs).current_index = fs.length
    exact hcur
  · show (modifyMany (UndoWrapper.new s) fs).states.length - 1 -
      (modifyMany (UndoWrapper.new s) fs).current_index = 0
    rw [hcur, hlen]
    omega
  · show (undoMany (modifyMany (UndoWrapper.new s) fs) k).current_index = fs.length - k
    rw [huc, hcur]
  · show (undoMany (modifyMany (UndoWrapper.new s) fs) k).states.length - 1 -
      (undoMany (modifyMany (UndoWrapper.new s) fs) k).current_index = k
    rw [huc, hcur]
    have : (undoMany (modifyMany (UndoWrapper.new s) fs) k).states.length = fs.length + 1 := by
      rw [hus, hlen]
    rw [this]
    omega
  · intro f
    exact UndoWrapper.modify_redo_count _ f

/-- Witness for C4 at a concrete instance: two modifications of a counter
followed by one undo. -/
theorem undo_redo_count_evolution_witness :
    (modifyMany (UndoWrapper.new 0) [fun x : Nat => x + 1, fun x => x * 2]).undo_count = 2 ∧
    (modifyMany (UndoWrapper.new 0) [fun x : Nat => x + 1, fun x => x * 2]).redo_count = 0 ∧
    (undoMany (modifyMany (UndoWrapper.new 0) [fun x : Nat => x + 1, fun x => x * 2]) 1).undo_count = 1 ∧
    (undoMany (modifyMany (UndoWrapper.new 0) [fun x : Nat => x + 1, fun x => x * 2]) 1).redo_count = 1 ∧
    ((undoMany (modifyMany (UndoWrapper.new 0) [fun x : Nat => x + 1, fun x => x * 2]) 1).modify
      (fun x => x + 5)).redo_count = 0 := by
  have h := undo_redo_count_evolution Nat 0 [fun x : Nat => x + 1, fun x => x * 2] 1
    (by decide)
  exact ⟨h.1, h.2.1, h.2.2.1, h.2.2.2.1, h.2.2.2.2 (fun x => x + 5)⟩

theorem applyOps_nav_clean {T : Type} {ops : List (UndoOp T)} (hnav : isNavOnly ops = true) :
    ∀ w : UndoWrapper T, (applyOps w ops).clean_index = w.clean_index := by
  induction ops with
  | nil => intro w; rfl
  | cons op ops ih =>
    intro w
    unfold isNavOnly at hnav
    rw [List.all_cons, Bool.and_eq_true] at hnav
    obtain ⟨hop, hops⟩ := hnav
    show (applyOps (applyOp w op) ops).clean_index = w.clean_index
    rw [ih hops]
    cases op with
    | modify f => simp at hop
    | undo => exact UndoWrapper.undo_clean w
    | redo => exact UndoWrapper.redo_clean w
    | markClean => simp at hop

theorem applyOps_noMarkClean_none {T : Type} {ops : List (UndoOp T)}
    (h : noMarkClean ops = true) :
    ∀ w : UndoWrapper T, w.clean_index = none → (applyOps w ops).clean_index = none := by
  induction ops with
  | nil => intro w hw; exact hw
  | cons op ops ih =>
    intro w hw
    unfold noMarkClean at h
    rw [List.all_cons, Bool.and_eq_true] at h
    obtain ⟨hop, hops⟩ := h
    show (applyOps (applyOp w op) ops).clean_index = none
    refine ih hops _ ?_
    cases op with
    | modify f =>
      show (w.modify f).clean_index = none
      rw [UndoWrapper.modify_clean, hw]
    | undo => rw [show applyOp w .undo = w.undo.1 from rfl, UndoWrapper.undo_clean]; exact hw
    | redo => rw [show applyOp w .redo = w.redo.1 from rfl, UndoWrapper.redo_clean]; exact hw
    | markClean => simp at hop

/-- C5: `is_dirty()` is false immediately after `mark_clean()`; any
`modify()` (in particular one following a `mark_clean()`) makes it true;
and after a sequence of pure `undo()`/`redo()` navigation following
`mark_clean()`, it is false exactly when the cursor is back at the index
that was marked clean. -/
theorem dirty_tracks_clean_index (T : Type) (w : UndoWrapper T) (ops : List (UndoOp T))
    (hnav : isNavOnly ops = true) :
    (w.mark_clean).is_dirty = false ∧
    (∀ (w2 : UndoWrapper T) (f : T → T), (w2.modify f).is_dirty = true) ∧
    ((applyOps w.mark_clean ops).current_index = w.current_index →
      (applyOps w.mark_clean ops).is_dirty = false) := by
  refine ⟨UndoWrapper.mark_clean_is_dirty w, fun w2 f => UndoWrapper.modify_is_dirty w2 f, ?_⟩
  intro hcur
  unfold UndoWrapper.is_dirty
  rw [applyOps_nav_clean hnav, UndoWrapper.mark_clean_clean, hcur]
  simp

/-- Witness for C5: mark a one-edit history clean, then check dirtiness
after a further edit and after an undo/redo round trip. -/
theorem dirty_tracks_clean_index_witness :
    ((UndoWrapper.new 0).modify (fun x : Nat => x + 1)).mark_clean.is_dirty = false ∧
    (((UndoWrapper.new 0).modify (fun x : Nat => x + 1)).mark_clean.modify
      (fun x => x + 2)).is_dirty = true ∧
    (applyOps ((UndoWrapper.new 0).modify (fun x : Nat => x + 1)).mark_clean
      [UndoOp.undo, UndoOp.redo]).is_dirty = false := by
  have h := dirty_tracks_clean_index Nat ((UndoWrapper.new 0).modify (fun x => x + 1))
    [UndoOp.undo, UndoOp.redo] rfl
  exact ⟨h.1, h.2.1 _ (fun x => x + 2), h.2.2 rfl⟩

/-- C9: a freshly constructed wrapper (also one seeded from a just-loaded
state) reports `is_dirty() == true`, because the clean index starts unset;
it stays dirty across any operations that never call `mark_clean()`. -/
theorem fresh_wrapper_is_dirty (T : Type) (s : T) (ops : List (UndoOp T))
    (h : noMarkClean ops = true) :
    (UndoWrapper.new s).is_dirty = true ∧
    (applyOps (UndoWrapper.new s) ops).is_dirty = true := by
  constructor
  · rfl
  · unfold UndoWrapper.is_dirty
    rw [applyOps_noMarkClean_none h _ rfl]
    rfl

/-- Witness for C9: a fresh wrapper stays dirty across a modify, an undo
and a redo. -/
theorem fresh_wrapper_is_dirty_witness :
    (UndoWrapper.new 7).is_dirty = true ∧
    (applyOps (UndoWrapper.new 7)
      [UndoOp.modify (fun x : Nat => x + 1), UndoOp.undo, UndoOp.redo]).is_dirty = true :=
  fresh_wrapper_is_dirty Nat 7 [UndoOp.modify (fun x => x + 1), UndoOp.undo, UndoOp.redo] rfl

/-- C10: `undo()` and `redo()` mutate only the cursor — the snapshot list
and the clean index are unchanged — and whenever `undo()` returns true, an
immediately following `redo()` returns true and `state()` afterwards
equals the state observed before the `undo()`. -/
theorem undo_redo_move_cursor_only (T : Type) (w : UndoWrapper T) :
    w.undo.1.states = w.states ∧ w.undo.1.clean_index = w.clean_index ∧
    w.redo.1.states = w.states ∧ w.redo.1.clean_index = w.clean_index ∧
    (w.undo.2 = true → w.undo.1.redo.2 = true ∧ w.undo.1.redo.1.state = w.state) := by
  refine ⟨UndoWrapper.undo_states w, UndoWrapper.undo_clean w, UndoWrapper.redo_states w,
    UndoWrapper.redo_clean w, ?_⟩
  intro hu
  have hpos : 0 < w.current_index := (UndoWrapper.undo_snd_iff w).mp hu
  have hlen : w.undo.1.states.length = w.states.length := by rw [UndoWrapper.undo_states]
  have hcond : w.undo.1.current_index < w.undo.1.states.length - 1 := by
    rw [UndoWrapper.undo_current, hlen]
    have := w.hlt
    omega
  constructor
  · exact (UndoWrapper.redo_snd_iff _).mpr hcond
  · apply UndoWrapper.state_congr
    · rw [UndoWrapper.redo_states, UndoWrapper.undo_states]
    · rw [UndoWrapper.redo_current, if_pos hcond, UndoWrapper.undo_current]
      omega

/-- Witness for C10 at a one-edit history, where `undo()` returns true. -/
theorem undo_redo_move_cursor_only_witness :
    (((UndoWrapper.new 3).modify (fun x : Nat => x + 1)).undo.1.states =
      ((UndoWrapper.new 3).modify (fun x : Nat => x + 1)).states) ∧
    (((UndoWrapper.new 3).modify (fun x : Nat => x + 1)).undo.1.redo.2 = true) ∧
    (((UndoWrapper.new 3).modify (fun x : Nat => x + 1)).undo.1.redo.1.state =
      ((UndoWrapper.new 3).modify (fun x : Nat => x + 1)).state) := by
  have h := undo_redo_move_cursor_only Nat ((UndoWrapper.new 3).modify (fun x => x + 1))
  exact ⟨h.1, (h.2.2.2.2 rfl).1, (h.2.2.2.2 rfl).2⟩

/-! ## Versioned-file claims -/

/-- C3: decoding a parsed envelope into the current `Database` checks the
version first: for every version other than 1 (e.g. 99) the conversion is
`UnknownVersion` carrying that version number, uniformly in the payload —
so the payload is never interpreted — and for version 1 the payload is
decoded as the version-1 disk model. -/
theorem version_checked_before_payload (v : Nat) (data : Option DatabaseDiskModel) :
    tryIntoDatabase ⟨v, data⟩ =
      if v = 1 then decodeV1Payload data else LoadOutcome.err (.unknownVersion v) := by
  unfold tryIntoDatabase
  dsimp only
  by_cases h : v = 1
  · simp [h]
  · simp [h]

/-! ## Unresolved-dependency behaviour of `from_disk_model` -/

/-- The position of the record whose id wins the `HashMap` insert race in
`buildIdMap` (the last record carrying that id), if any. -/
def lastPos : List TaskDiskModel → String → Option Nat
  | [], _ => none
  | r :: rs, d =>
    match lastPos rs d with
    | some k => some (k + 1)
    | none => if r.task.id == d then some 0 else none

theorem lookupAssoc_buildIdMap (rs : List TaskDiskModel) :
    ∀ (m0 : List (String × Nat)) (base : Nat) (d : String),
      lookupAssoc (buildIdMap m0 rs base) d =
        match lastPos rs d with
        | some k => some (base + k)
        | none => lookupAssoc m0 d := by
  induction rs with
  | nil => intro m0 base d; rfl
  | cons r rs ih =>
    intro m0 base d
    show lookupAssoc (buildIdMap (insertAssoc m0 r.task.id base) rs (base + 1)) d = _
    rw [ih]
    cases hl : lastPos rs d with
    | some k =>
      show some (base + 1 + k) = _
      unfold lastPos
      rw [hl]
      show some (base + 1 + k) = some (base + (k + 1))
      congr 1
      omega
    | none =>
      show lookupAssoc (insertAssoc m0 r.task.id base) d = _
      unfold lastPos
      rw [hl]
      by_cases hd : d = r.task.id
      · subst hd
        rw [lookupAssoc_insert_self]
        simp
      · rw [lookupAssoc_insert_ne _ hd]
        rw [if_neg (by simpa using fun hh => hd hh.symm)]

theorem lastPos_some {rs : List TaskDiskModel} {d : String} {k : Nat}
    (h : lastPos rs d = some k) :
    k < rs.length ∧ ∃ r, rs[k]? = some r ∧ r.task.id = d := by
  induction rs generalizing k with
  | nil => simp [lastPos] at h
  | cons r rs ih =>
    unfold lastPos at h
    cases hl : lastPos rs d with
    | some k' =>
      rw [hl] at h
      cases h
      obtain ⟨hlt, r', hr', hid⟩ := ih hl
      exact ⟨by simpa using Nat.succ_lt_succ hlt, r', by simpa using hr', hid⟩
    | none =>
      rw [hl] at h
      by_cases hd : r.task.id = d
      · rw [if_pos (by simp [hd])] at h
        cases h
        exact ⟨by simp, r, by simp, hd⟩
      · rw [if_neg (by simp [hd])] at h
        cases h

theorem lastPos_none_iff {rs : List TaskDiskModel} {d : String} :
    lastPos rs d = none ↔ ∀ r ∈ rs, r.task.id ≠ d := by
  induction rs with
  | nil => simp [lastPos]
  | cons r rs ih =>
    unfold lastPos
    cases hl : lastPos rs d with
    | some k =>
      simp only
      constructor
      · intro h; cases h
      · intro h
        have := (ih.mpr (fun r2 hr2 => h r2 (List.mem_cons_of_mem _ hr2)))
        rw [hl] at this
        cases this
    | none =>
      simp only
      by_cases hd : r.task.id = d
      · rw [if_pos (by simp [hd])]
        constructor
        · intro h; cases h
        · intro h
          exact absurd hd (h r (List.mem_cons_self _ _))
      · rw [if_neg (by simp [hd])]
        constructor
        · intro _ r2 hr2
          rcases List.mem_cons.mp hr2 with hh | hh
          · subst hh; exact hd
          · exact ih.mp hl r2 hh
        · intro _; rfl

theorem optionList_eq_none_of_mem {l : List (Option α)} (h : none ∈ l) :
    optionList l = none := by
  induction l with
  | nil => cases h
  | cons x rest ih =>
    cases x with
    | none => rfl
    | some a =>
      rcases List.mem_cons.mp h with hh | hh
      · cases hh
      · show (optionList rest).map _ = none
        rw [ih hh]
        rfl

theorem optionList_some {l : List (Option α)} (h : ∀ x ∈ l, x.isSome = true) :
    ∃ l', optionList l = some l' ∧ ∀ a, a ∈ l' ↔ some a ∈ l := by
  induction l with
  | nil => exact ⟨[], rfl, by simp⟩
  | cons x rest ih =>
    cases x with
    | none =>
      have := h none (List.mem_cons_self _ _)
      simp at this
    | some a =>
      obtain ⟨l', hl', hmem⟩ := ih (fun x hx => h x (List.mem_cons_of_mem _ hx))
      refine ⟨a :: l', ?_, ?_⟩
      · show (optionList rest).map _ = _
        rw [hl']
        rfl
      · intro b
        rw [List.mem_cons, List.mem_cons, hmem]
        constructor
        · rintro (hh | hh)
          · subst hh; exact Or.inl rfl
          · exact Or.inr hh
        · rintro (hh | hh)
          · exact Or.inl (by injection hh)
          · exact Or.inr hh

theorem allDiskEdges_none {idMap : List (String × Nat)} {n : Nat}
    {rs : List TaskDiskModel} {r : TaskDiskModel} (hr : r ∈ rs)
    (h : diskEdgesFor idMap n r = none) : allDiskEdges idMap n rs = none := by
  induction rs with
  | nil => cases hr
  | cons r' rs ih =>
    show (match diskEdgesFor idMap n r', allDiskEdges idMap n rs with
      | some es, some rest => some (es ++ rest)
      | _, _ => none) = none
    rcases List.mem_cons.mp hr with hh | hh
    · subst hh
      rw [h]
    · rw [ih hh]
      cases diskEdgesFor idMap n r' <;> rfl

/-- C2 (counterexample to the claim as stated): a version-1 envelope whose
single task record lists a dependency id `"Z"` that occurs in no record.
The claim says the conversion must surface a typed, recoverable load error
and must not abort the process; the code instead panics (the `HashMap`
index on the missing id), which the embedding records as
`LoadOutcome.panic` — by constructor disjointness not an
`Err DatabaseReadError`. -/
theorem unresolved_dep_counterexample :
    tryIntoDatabase ⟨1, some ⟨[⟨["Z"], ⟨"A", "buy milk", 0, none, none, []⟩⟩]⟩⟩ =
      LoadOutcome.panic := by
  rfl

/-- C2 (amended): whenever some task record's dependency list contains an
id that occurs among no task record of the disk model, the conversion
`from_disk_model` panics (process abort, `none` in the embedding) rather
than returning a typed `DatabaseReadError`; reading such a version-1
envelope therefore ends in a panic, not a recoverable error. -/
theorem unresolved_dep_panics (m : DatabaseDiskModel)
    (h : ∃ r ∈ m.tasks, ∃ d ∈ r.dependencies, ∀ r2 ∈ m.tasks, r2.task.id ≠ d) :
    from_disk_model m = none ∧
    tryIntoDatabase ⟨1, some m⟩ = LoadOutcome.panic := by
  obtain ⟨r, hr, d, hd, hmiss⟩ := h
  have hlook : lookupAssoc (buildIdMap [] m.tasks 0) d = none := by
    rw [lookupAssoc_buildIdMap, lastPos_none_iff.mpr hmiss]
    rfl
  have hper : perDepEdge (buildIdMap [] m.tasks 0) m.tasks.length r d = none := by
    unfold perDepEdge
    rw [hlook]
    cases lookupAssoc (buildIdMap [] m.tasks 0) r.task.id <;> rfl
  have hfor : diskEdgesFor (buildIdMap [] m.tasks 0) m.tasks.length r = none := by
    unfold diskEdgesFor
    refine optionList_eq_none_of_mem ?_
    rw [← hper]
    exact List.mem_map_of_mem _ hd
  have hall := allDiskEdges_none hr hfor
  have hfd : from_disk_model m = none := by
    show (allDiskEdges (buildIdMap [] m.tasks 0) m.tasks.length m.tasks).map _ = none
    rw [hall]
    rfl
  refine ⟨hfd, ?_⟩
  unfold tryIntoDatabase
  rw [if_neg (by simp)]
  show decodeV1Payload (some m) = LoadOutcome.panic
  unfold decodeV1Payload
  dsimp only
  rw [hfd]

/-- Witness for the amended C2 at the concrete single-record model with
the unresolved dependency id `"Z"`. -/
theorem unresolved_dep_panics_witness :
    from_disk_model ⟨[⟨["Z"], ⟨"A", "buy milk", 0, none, none, []⟩⟩]⟩ = none ∧
    tryIntoDatabase ⟨1, some ⟨[⟨["Z"], ⟨"A", "buy milk", 0, none, none, []⟩⟩]⟩⟩ =
      LoadOutcome.panic :=
  unresolved_dep_panics ⟨[⟨["Z"], ⟨"A", "buy milk", 0, none, none, []⟩⟩]⟩
    (by refine ⟨⟨["Z"], ⟨"A", "buy milk", 0, none, none, []⟩⟩, by simp, "Z", by simp, ?_⟩
        intro r2 hr2
        simp at hr2
        subst hr2
        decide)

/-! ## Resolution of ids under the store invariant -/

theorem taskAt_getElem? {nodes : List (Option Task)} {i : Nat} {t : Task}
    (h : taskAt nodes i = some t) : nodes[i]? = some (some t) := by
  unfold taskAt at h
  cases hg : nodes[i]? with
  | none => rw [hg] at h; cases h
  | some x =>
    rw [hg] at h
    cases x with
    | none => cases h
    | some u =>
      have h2 : (some u : Option Task) = some t := h
      rw [h2]

theorem taskAt_mem_filterMap {nodes : List (Option Task)} {i : Nat} {t : Task}
    (h : taskAt nodes i = some t) : t ∈ nodes.filterMap id := by
  have hg := taskAt_getElem? h
  exact List.mem_filterMap.mpr ⟨some t, List.mem_iff_getElem?.mpr ⟨i, hg⟩, rfl⟩

theorem mem_filterMap_taskAt {nodes : List (Option Task)} {t : Task}
    (h : t ∈ nodes.filterMap id) : ∃ i, taskAt nodes i = some t := by
  obtain ⟨x, hx, hxt⟩ := List.mem_filterMap.mp h
  cases x with
  | none => cases hxt
  | some u =>
    obtain ⟨i, hi⟩ := List.getElem?_of_mem hx
    refine ⟨i, ?_⟩
    unfold taskAt
    rw [hi]
    exact hxt

theorem get_node_index_sound {g : Database} {tid : String} {i : Nat}
    (hwf : WellFormed g) (h : get_node_index g tid = some i) :
    ∃ t, taskAt g.nodes i = some t ∧ t.id = tid := by
  unfold get_node_index at h
  cases hl : lookupAssoc g.task_id_to_index tid with
  | some i' =>
    rw [hl] at h
    injection h with h'
    subst h'
    have hmem := lookupAssoc_mem hl
    have := hwf.1 _ hmem
    cases hat : taskAt g.nodes i' with
    | none => rw [hat] at this; cases this
    | some t =>
      rw [hat] at this
      injection this with h2
      exact ⟨t, rfl, h2⟩
  | none =>
    rw [hl] at h
    have := scanFrom_some h
    rw [Nat.sub_zero] at this
    obtain ⟨t, _, hat, hid⟩ := this
    exact ⟨t, hat, hid⟩

theorem get_node_index_none_iff {g : Database} {tid : String} (hwf : WellFormed g) :
    get_node_index g tid = none ↔ ∀ t ∈ get_all_tasks g, t.id ≠ tid := by
  constructor
  · intro h
    unfold get_node_index at h
    cases hl : lookupAssoc g.task_id_to_index tid with
    | some i' => rw [hl] at h; cases h
    | none =>
      rw [hl] at h
      exact scanFrom_none_iff.mp h
  · intro hall
    unfold get_node_index
    cases hl : lookupAssoc g.task_id_to_index tid with
    | some i' =>
      have hmem := lookupAssoc_mem hl
      have := hwf.1 _ hmem
      cases hat : taskAt g.nodes i' with
      | none => rw [hat] at this; cases this
      | some t =>
        rw [hat] at this
        injection this with h2
        exact absurd h2 (hall t (taskAt_mem_filterMap hat))
    | none =>
      exact scanFrom_none_iff.mpr hall

/-- C6: `remove_task` on an id not present in the graph leaves the store
unchanged (in fact returns it identically); on a present id it removes
exactly the resolved node (which carries that id) together with all edges
incident to it in either direction, and every other id still resolves to
the same task record as before. -/
theorem remove_task_frame (g : Database) (tid : String) (hwf : WellFormed g) :
    ((∀ t ∈ get_all_tasks g, t.id ≠ tid) → remove_task g tid = g) ∧
    (∀ i, scanFrom g.nodes 0 tid = some i →
      ∃ t0, taskAt g.nodes i = some t0 ∧ t0.id = tid ∧
        (remove_task g tid).nodes = g.nodes.set i none ∧
        occupiedEdges (remove_task g tid) =
          (occupiedEdges g).filter (fun e => !(e.1 == i) && !(e.2 == i)) ∧
        (∀ tid2, tid2 ≠ tid → indexById (remove_task g tid) tid2 = indexById g tid2)) := by
  constructor
  · intro habs
    have hca : removeAssoc g.task_id_to_index tid = g.task_id_to_index := by
      refine List.filter_eq_self.mpr ?_
      intro p hp
      have := hwf.1 p hp
      cases hat : taskAt g.nodes p.2 with
      | none => rw [hat] at this; cases this
      | some t =>
        rw [hat] at this
        injection this with h2
        have := habs t (taskAt_mem_filterMap hat)
        rw [h2] at this
        simpa using this
    have hg1 : ({ g with task_id_to_index := removeAssoc g.task_id_to_index tid } : Database) = g := by
      rw [hca]
    have hnone : get_node_index g tid = none := (get_node_index_none_iff hwf).mpr habs
    rw [remove_task_eq, hg1, hnone]
  · intro i hscan
    have hs := scanFrom_some hscan
    rw [Nat.sub_zero] at hs
    obtain ⟨t0, _, hat0, hid0⟩ := hs
    have hred : remove_task g tid =
        removeNode { g with task_id_to_index := removeAssoc g.task_id_to_index tid } i := by
      rw [remove_task_eq]
      have hgni : get_node_index
          { g with task_id_to_index := removeAssoc g.task_id_to_index tid } tid = some i := by
        unfold get_node_index
        dsimp only
        rw [lookupAssoc_remove_self]
        exact hscan
      rw [hgni]
    refine ⟨t0, hat0, hid0, ?_, ?_, ?_⟩
    · rw [hred]
      rfl
    · rw [hred]
      show (clearIncident g.edges i).filterMap id = _
      rw [filterMap_clearIncident]
      rfl
    · intro tid2 hne
      rw [hred]
      unfold indexById get_node_index removeNode
      dsimp only
      rw [lookupAssoc_remove_ne hne]
      cases hl : lookupAssoc g.task_id_to_index tid2 with
      | some j =>
        dsimp only
        have hmem := lookupAssoc_mem hl
        have := hwf.1 _ hmem
        cases hat : taskAt g.nodes j with
        | none => rw [hat] at this; cases this
        | some u =>
          rw [hat] at this
          injection this with h2
          have hji : j ≠ i := by
            intro hh
            rw [hh, hat0] at hat
            have h3 : t0 = u := by injection hat
            have h2' : u.id = tid2 := h2
            rw [← h3, hid0] at h2'
            exact hne h2'.symm
          show taskAt (g.nodes.set i none) j = taskAt g.nodes j
          exact taskAt_set_ne _ hji
      | none =>
        dsimp only
        have ht0ne : t0.id ≠ tid2 := by
          rw [hid0]
          exact fun hh => hne hh.symm
        rw [show scanFrom (g.nodes.set i none) 0 tid2 = scanFrom g.nodes 0 tid2 from
          scanFrom_set_none hat0 ht0ne 0]
        cases hsc : scanFrom g.nodes 0 tid2 with
        | none => rfl
        | some j =>
          have hs2 := scanFrom_some hsc
          rw [Nat.sub_zero] at hs2
          obtain ⟨u, _, hatu, hidu⟩ := hs2
          have hji : j ≠ i := by
            intro hh
            rw [hh, hat0] at hatu
            injection hatu with h3
            rw [← h3] at hidu
            exact hne (hidu ▸ hid0 ▸ rfl)
          show taskAt (g.nodes.set i none) j = taskAt g.nodes j
          exact taskAt_set_ne _ hji

/-- Witness for C6: the two-task, one-edge example graph, removing an
absent id ("Z") and a present one ("A"). -/
theorem remove_task_frame_witness :
    (remove_task ⟨[some ⟨"A", "buy milk", 0, none, none, []⟩,
        some ⟨"B", "go to store", 1, none, none, []⟩], [some (0, 1)], [], [],
        [("B", 1), ("A", 0)]⟩ "Z" =
      ⟨[some ⟨"A", "buy milk", 0, none, none, []⟩,
        some ⟨"B", "go to store", 1, none, none, []⟩], [some (0, 1)], [], [],
        [("B", 1), ("A", 0)]⟩) ∧
    (∃ t0, taskAt [some ⟨"A", "buy milk", 0, none, none, []⟩,
        some ⟨"B", "go to store", 1, none, none, []⟩] 0 = some t0 ∧ t0.id = "A" ∧
      (remove_task ⟨[some ⟨"A", "buy milk", 0, none, none, []⟩,
        some ⟨"B", "go to store", 1, none, none, []⟩], [some (0, 1)], [], [],
        [("B", 1), ("A", 0)]⟩ "A").nodes =
        [some ⟨"A", "buy milk", 0, none, none, []⟩,
          some ⟨"B", "go to store", 1, none, none, []⟩].set 0 none ∧
      occupiedEdges (remove_task ⟨[some ⟨"A", "buy milk", 0, none, none, []⟩,
        some ⟨"B", "go to store", 1, none, none, []⟩], [some (0, 1)], [], [],
        [("B", 1), ("A", 0)]⟩ "A") =
        (occupiedEdges ⟨[some ⟨"A", "buy milk", 0, none, none, []⟩,
          some ⟨"B", "go to store", 1, none, none, []⟩], [some (0, 1)], [], [],
          [("B", 1), ("A", 0)]⟩).filter (fun e => !(e.1 == 0) && !(e.2 == 0)) ∧
      (∀ tid2, tid2 ≠ "A" →
        indexById (remove_task ⟨[some ⟨"A", "buy milk", 0, none, none, []⟩,
          some ⟨"B", "go to store", 1, none, none, []⟩], [some (0, 1)], [], [],
          [("B", 1), ("A", 0)]⟩ "A") tid2 =
        indexById ⟨[some ⟨"A", "buy milk", 0, none, none, []⟩,
          some ⟨"B", "go to store", 1, none, none, []⟩], [some (0, 1)], [], [],
          [("B", 1), ("A", 0)]⟩ tid2)) := by
  constructor
  · exact (remove_task_frame ⟨[some ⟨"A", "buy milk", 0, none, none, []⟩,
      some ⟨"B", "go to store", 1, none, none, []⟩], [some (0, 1)], [], [],
      [("B", 1), ("A", 0)]⟩ "Z" (by decide)).1 (by decide)
  · exact (remove_task_frame ⟨[some ⟨"A", "buy milk", 0, none, none, []⟩,
      some ⟨"B", "go to store", 1, none, none, []⟩], [some (0, 1)], [], [],
      [("B", 1), ("A", 0)]⟩ "A" (by decide)).2 0 (by decide)

theorem slotOccupied_of_get_node_index {g : Database} {x : String} {i : Nat}
    (hwf : WellFormed g) (h : get_node_index g x = some i) :
    slotOccupied g.nodes i = true := by
  obtain ⟨t, hat, _⟩ := get_node_index_sound hwf h
  unfold slotOccupied
  rw [hat]
  rfl

theorem add_dependency_eq_some {g : Database} {a b : String} {i j : Nat}
    (hwf : WellFormed g) (hia : get_node_index g a = some i)
    (hjb : get_node_index g b = some j) :
    add_dependency g a b = some (addEdgeRaw g i j) := by
  unfold add_dependency
  rw [hia, hjb]
  dsimp only
  unfold add_edge
  rw [if_pos (by rw [slotOccupied_of_get_node_index hwf hia,
    slotOccupied_of_get_node_index hwf hjb]; rfl)]

/-- C7: `add_dependency(from, to)` panics (`none`) exactly when one of the
two ids does not resolve to a task in the graph; when both resolve it
succeeds and inserts exactly one new directed edge `from → to`, leaving
the tasks, the cache and every pre-existing edge unchanged — also when an
identical edge already exists or the new edge closes a cycle. -/
theorem add_dependency_panics_or_inserts (g : Database) (a b : String) (hwf : WellFormed g) :
    (add_dependency g a b = none ↔
      (∀ t ∈ get_all_tasks g, t.id ≠ a) ∨ (∀ t ∈ get_all_tasks g, t.id ≠ b)) ∧
    (∀ i j, get_node_index g a = some i → get_node_index g b = some j →
      ∃ g', add_dependency g a b = some g' ∧
        g'.nodes = g.nodes ∧ g'.task_id_to_index = g.task_id_to_index ∧
        (occupiedEdges g').Perm ((i, j) :: occupiedEdges g) ∧
        (idPairs g').Perm ((a, b) :: idPairs g)) := by
  constructor
  · constructor
    · intro hnone
      cases hia : get_node_index g a with
      | none => exact Or.inl ((get_node_index_none_iff hwf).mp hia)
      | some i =>
        cases hjb : get_node_index g b with
        | none => exact Or.inr ((get_node_index_none_iff hwf).mp hjb)
        | some j =>
          rw [add_dependency_eq_some hwf hia hjb] at hnone
          cases hnone
    · intro hd
      unfold add_dependency
      rcases hd with hh | hh
      · rw [(get_node_index_none_iff hwf).mpr hh]
      · cases hia : get_node_index g a with
        | none => rfl
        | some i =>
          rw [(get_node_index_none_iff hwf).mpr hh]
  · intro i j hia hjb
    obtain ⟨ta, hta, hidta⟩ := get_node_index_sound hwf hia
    obtain ⟨tb, htb, hidtb⟩ := get_node_index_sound hwf hjb
    refine ⟨addEdgeRaw g i j, add_dependency_eq_some hwf hia hjb,
      addEdgeRaw_nodes g i j, addEdgeRaw_cache g i j,
      occupiedEdges_addEdgeRaw hwf.2.2.2.2.1 i j, ?_⟩
    unfold idPairs
    simp only [addEdgeRaw_nodes]
    have hperm := (occupiedEdges_addEdgeRaw hwf.2.2.2.2.1 i j).filterMap (fun e =>
      match taskAt g.nodes e.1, taskAt g.nodes e.2 with
      | some x, some y => some (x.id, y.id)
      | _, _ => none)
    refine hperm.trans ?_
    rw [List.filterMap_cons]
    have hf : (match taskAt g.nodes (i, j).1, taskAt g.nodes (i, j).2 with
        | some x, some y => some (x.id, y.id)
        | _, _ => none) = some (a, b) := by
      show (match taskAt g.nodes i, taskAt g.nodes j with
        | some x, some y => some (x.id, y.id)
        | _, _ => none) = some (a, b)
      rw [hta, htb]
      dsimp only
      rw [hidta, hidtb]
    rw [hf]

/-- Witness for C7: the two-task, one-edge example graph, querying both an
absent id and the two present ids (the inserted duplicate edge case). -/
theorem add_dependency_panics_or_inserts_witness :
    (add_dependency ⟨[some ⟨"A", "buy milk", 0, none, none, []⟩,
        some ⟨"B", "go to store", 1, none, none, []⟩], [some (0, 1)], [], [],
        [("B", 1), ("A", 0)]⟩ "A" "Z" = none) ∧
    (∃ g', add_dependency ⟨[some ⟨"A", "buy milk", 0, none, none, []⟩,
        some ⟨"B", "go to store", 1, none, none, []⟩], [some (0, 1)], [], [],
        [("B", 1), ("A", 0)]⟩ "A" "B" = some g' ∧
      g'.nodes = [some ⟨"A", "buy milk", 0, none, none, []⟩,
        some ⟨"B", "go to store", 1, none, none, []⟩] ∧
      g'.task_id_to_index = [("B", 1), ("A", 0)] ∧
      (occupiedEdges g').Perm ((0, 1) :: [(0, 1)]) ∧
      (idPairs g').Perm (("A", "B") :: [("A", "B")])) := by
  have h := add_dependency_panics_or_inserts ⟨[some ⟨"A", "buy milk", 0, none, none, []⟩,
    some ⟨"B", "go to store", 1, none, none, []⟩], [some (0, 1)], [], [],
    [("B", 1), ("A", 0)]⟩ "A" "B" (by decide)
  have h2 := add_dependency_panics_or_inserts ⟨[some ⟨"A", "buy milk", 0, none, none, []⟩,
    some ⟨"B", "go to store", 1, none, none, []⟩], [some (0, 1)], [], [],
    [("B", 1), ("A", 0)]⟩ "A" "Z" (by decide)
  constructor
  · exact h2.1.mpr (Or.inr (by decide))
  · exact h.2 0 1 (by decide) (by decide)

/-- C8: after `add_dependency(a, b)` on a graph holding distinct tasks for
`a` and `b` and no other edges touching either, `get_dependencies(a)`
yields exactly the task of `b` (outgoing direction) and
`get_inverse_dependencies(b)` yields exactly the task of `a` (incoming
direction) — the two query directions are not swapped. -/
theorem dependency_query_directions (g : Database) (a b : String) (ta tb : Task) (i j : Nat)
    (hwf : WellFormed g)
    (hia : get_node_index g a = some i) (hjb : get_node_index g b = some j)
    (hta : taskAt g.nodes i = some ta) (htb : taskAt g.nodes j = some tb)
    (_hab : a ≠ b)
    (hno : ∀ e ∈ occupiedEdges g, e.1 ≠ i ∧ e.2 ≠ i ∧ e.1 ≠ j ∧ e.2 ≠ j) :
    ∃ g', add_dependency g a b = some g' ∧
      get_dependencies g' a = some [tb] ∧
      get_inverse_dependencies g' b = some [ta] := by
  refine ⟨addEdgeRaw g i j, add_dependency_eq_some hwf hia hjb, ?_, ?_⟩
  · have hga : get_node_index (addEdgeRaw g i j) a = some i := by
      unfold get_node_index
      rw [addEdgeRaw_cache, addEdgeRaw_nodes]
      exact hia
    unfold get_dependencies
    rw [hga]
    dsimp only
    have hperm := (occupiedEdges_addEdgeRaw hwf.2.2.2.2.1 i j).filter (fun e => e.1 == i)
    rw [List.filter_cons] at hperm
    rw [if_pos (by simp)] at hperm
    have hnil : List.filter (fun e => e.1 == i) (occupiedEdges g) = [] :=
      List.filter_eq_nil_iff.mpr (fun e he => by simp [(hno e he).1])
    rw [hnil] at hperm
    have hsingle : (occupiedEdges (addEdgeRaw g i j)).filter (fun e => e.1 == i) = [(i, j)] :=
      List.perm_singleton.mp hperm
    rw [hsingle]
    simp only [List.map_cons, List.map_nil, addEdgeRaw_nodes]
    show optionList [taskAt g.nodes j] = some [tb]
    rw [htb]
    rfl
  · have hgb : get_node_index (addEdgeRaw g i j) b = some j := by
      unfold get_node_index
      rw [addEdgeRaw_cache, addEdgeRaw_nodes]
      exact hjb
    unfold get_inverse_dependencies
    rw [hgb]
    dsimp only
    have hperm := (occupiedEdges_addEdgeRaw hwf.2.2.2.2.1 i j).filter (fun e => e.2 == j)
    rw [List.filter_cons] at hperm
    rw [if_pos (by simp)] at hperm
    have hnil : List.filter (fun e => e.2 == j) (occupiedEdges g) = [] :=
      List.filter_eq_nil_iff.mpr (fun e he => by simp [(hno e he).2.2.2])
    rw [hnil] at hperm
    have hsingle : (occupiedEdges (addEdgeRaw g i j)).filter (fun e => e.2 == j) = [(i, j)] :=
      List.perm_singleton.mp hperm
    rw [hsingle]
    simp only [List.map_cons, List.map_nil, addEdgeRaw_nodes]
    show optionList [taskAt g.nodes i] = some [ta]
    rw [hta]
    rfl

/-- Witness for C8: the two-task example graph with no edges. -/
theorem dependency_query_directions_witness :
    ∃ g', add_dependency ⟨[some ⟨"A", "buy milk", 0, none, none, []⟩,
        some ⟨"B", "go to store", 1, none, none, []⟩], [], [], [],
        [("B", 1), ("A", 0)]⟩ "A" "B" = some g' ∧
      get_dependencies g' "A" = some [⟨"B", "go to store", 1, none, none, []⟩] ∧
      get_inverse_dependencies g' "B" = some [⟨"A", "buy milk", 0, none, none, []⟩] :=
  dependency_query_directions ⟨[some ⟨"A", "buy milk", 0, none, none, []⟩,
      some ⟨"B", "go to store", 1, none, none, []⟩], [], [], [], [("B", 1), ("A", 0)]⟩
    "A" "B" ⟨"A", "buy milk", 0, none, none, []⟩ ⟨"B", "go to store", 1, none, none, []⟩
    0 1 (by decide) (by decide) (by decide) (by decide) (by decide) (by decide)
    (by intro e he; cases he)

/-! ## Round trip, part 1: the node-collection loop of `to_disk_model` -/

theorem collectNodes_map_task (nodes : List (Option Task)) :
    ∀ base, (collectNodes nodes base).map (fun x => x.2.task) = nodes.filterMap id := by
  induction nodes with
  | nil => intro base; rfl
  | cons x rest ih =>
    intro base
    cases x with
    | some t =>
      show (t :: (collectNodes rest (base + 1)).map (fun x => x.2.task)) = _
      rw [ih]
      rfl
    | none =>
      show (collectNodes rest (base + 1)).map (fun x => x.2.task) = _
      rw [ih]
      rfl

theorem collectNodes_mem {nodes : List (Option Task)} :
    ∀ {base : Nat} {p : Nat × TaskDiskModel}, p ∈ collectNodes nodes base →
      base ≤ p.1 ∧ taskAt nodes (p.1 - base) = some p.2.task ∧ p.2.dependencies = [] := by
  induction nodes with
  | nil => intro base p h; cases h
  | cons x rest ih =>
    intro base p h
    cases x with
    | some t =>
      rcases List.mem_cons.mp h with hh | hh
      · subst hh
        refine ⟨Nat.le_refl _, ?_, rfl⟩
        rw [Nat.sub_self, taskAt_cons_zero]
      · obtain ⟨hle, hat, hdeps⟩ := ih hh
        refine ⟨by omega, ?_, hdeps⟩
        rw [show p.1 - base = (p.1 - (base + 1)) + 1 by omega, taskAt_cons_succ]
        exact hat
    | none =>
      obtain ⟨hle, hat, hdeps⟩ := ih h
      refine ⟨by omega, ?_, hdeps⟩
      rw [show p.1 - base = (p.1 - (base + 1)) + 1 by omega, taskAt_cons_succ]
      exact hat

theorem collectNodes_pairwise (nodes : List (Option Task)) :
    ∀ base, (collectNodes nodes base).Pairwise (fun x y => x.1 < y.1) := by
  induction nodes with
  | nil => intro base; exact List.Pairwise.nil
  | cons x rest ih =>
    intro base
    cases x with
    | some t =>
      refine List.pairwise_cons.mpr ⟨?_, ih (base + 1)⟩
      intro q hq
      have := (collectNodes_mem hq).1
      show base < q.1
      omega
    | none => exact ih (base + 1)

theorem collectNodes_find_lt {nodes : List (Option Task)} {base k : Nat} (h : k < base) :
    (collectNodes nodes base).find? (fun x => x.1 == k) = none := by
  refine List.find?_eq_none.mpr ?_
  intro p hp
  have := (collectNodes_mem hp).1
  simp only [beq_iff_eq]
  omega

theorem collectNodes_find {nodes : List (Option Task)} :
    ∀ {base k : Nat},
      (collectNodes nodes base).find? (fun x => x.1 == base + k) =
        (taskAt nodes k).map (fun t => (base + k, (⟨[], t⟩ : TaskDiskModel))) := by
  induction nodes with
  | nil =>
    intro base k
    rw [show collectNodes [] base = [] from rfl]
    rw [show taskAt [] k = none from by unfold taskAt; simp]
    rfl
  | cons x rest ih =>
    intro base k
    cases x with
    | some t =>
      cases k with
      | zero =>
        rw [taskAt_cons_zero]
        show ((base, (⟨[], t⟩ : TaskDiskModel)) :: collectNodes rest (base + 1)).find?
          (fun x => x.1 == base + 0) = some (base + 0, ⟨[], t⟩)
        rw [List.find?_cons_of_pos _ (by simp)]
        rfl
      | succ k' =>
        rw [taskAt_cons_succ]
        show ((base, (⟨[], t⟩ : TaskDiskModel)) :: collectNodes rest (base + 1)).find?
          (fun x => x.1 == base + (k' + 1)) =
          (taskAt rest k').map (fun t => (base + (k' + 1), (⟨[], t⟩ : TaskDiskModel)))
        rw [List.find?_cons_of_neg _ (by simp only [beq_iff_eq]; omega)]
        rw [show base + (k' + 1) = (base + 1) + k' by omega]
        exact ih
    | none =>
      cases k with
      | zero =>
        rw [taskAt_cons_zero]
        show (collectNodes rest (base + 1)).find? (fun x => x.1 == base + 0) = none
        exact collectNodes_find_lt (by omega)
      | succ k' =>
        rw [taskAt_cons_succ]
        show (collectNodes rest (base + 1)).find? (fun x => x.1 == base + (k' + 1)) =
          (taskAt rest k').map (fun t => (base + (k' + 1), (⟨[], t⟩ : TaskDiskModel)))
        rw [show base + (k' + 1) = (base + 1) + k' by omega]
        exact ih

theorem collectNodes_mem_of_taskAt {nodes : List (Option Task)} {k : Nat} {t : Task}
    (h : taskAt nodes k = some t) (base : Nat) :
    (base + k, (⟨[], t⟩ : TaskDiskModel)) ∈ collectNodes nodes base := by
  have hf := @collectNodes_find nodes base k
  rw [h] at hf
  exact List.mem_of_find?_eq_some hf

theorem collectNodes_any_of_taskAt {nodes : List (Option Task)} {k : Nat} {t : Task}
    (h : taskAt nodes k = some t) :
    (collectNodes nodes 0).any (fun x => x.1 == k) = true := by
  have hm := collectNodes_mem_of_taskAt h 0
  rw [Nat.zero_add] at hm
  exact List.any_eq_true.mpr ⟨(k, ⟨[], t⟩), hm, by simp⟩

/-! ## Round trip, part 2: the edge-collection loop of `to_disk_model` -/

/-- The dependency list stored for node index `k` in a collection state. -/
def depsAt (list : List (Nat × TaskDiskModel)) (k : Nat) : List String :=
  ((list.find? (fun x => x.1 == k)).map (fun x => x.2.dependencies)).getD []

/-- The task id stored for node index `k` in a collection state. -/
def idAt (list : List (Nat × TaskDiskModel)) (k : Nat) : Option String :=
  (list.find? (fun x => x.1 == k)).map (fun x => x.2.task.id)

theorem pushDep_find_task (list : List (Nat × TaskDiskModel)) (s : Nat) (d : String) (k : Nat) :
    ((pushDep list s d).find? (fun x => x.1 == k)).map (fun x => x.2.task) =
      (list.find? (fun x => x.1 == k)).map (fun x => x.2.task) := by
  induction list with
  | nil => rfl
  | cons x xs ih =>
    show (List.find? _ (if x.1 == s then _ :: xs else x :: pushDep xs s d)).map _ = _
    by_cases hs : x.1 = s
    · rw [if_pos (by simp [hs])]
      by_cases hk : x.1 = k
      · rw [List.find?_cons_of_pos _ (by simp [hk]), List.find?_cons_of_pos _ (by simp [hk])]
        rfl
      · rw [List.find?_cons_of_neg _ (by simp [hk]), List.find?_cons_of_neg _ (by simp [hk])]
    · rw [if_neg (by simp [hs])]
      by_cases hk : x.1 = k
      · rw [List.find?_cons_of_pos _ (by simp [hk]), List.find?_cons_of_pos _ (by simp [hk])]
      · rw [List.find?_cons_of_neg _ (by simp [hk]), List.find?_cons_of_neg _ (by simp [hk])]
        exact ih

theorem pushDep_keys (list : List (Nat × TaskDiskModel)) (s : Nat) (d : String) :
    (pushDep list s d).map (fun x => x.1) = list.map (fun x => x.1) := by
  induction list with
  | nil => rfl
  | cons x xs ih =>
    show (if x.1 == s then _ :: xs else x :: pushDep xs s d).map _ = _
    by_cases hs : x.1 = s
    · rw [if_pos (by simp [hs])]
      rfl
    · rw [if_neg (by simp [hs])]
      show x.1 :: (pushDep xs s d).map (fun x => x.1) = _
      rw [ih]
      rfl

theorem pushDep_tasks (list : List (Nat × TaskDiskModel)) (s : Nat) (d : String) :
    (pushDep list s d).map (fun x => x.2.task) = list.map (fun x => x.2.task) := by
  induction list with
  | nil => rfl
  | cons x xs ih =>
    show (if x.1 == s then _ :: xs else x :: pushDep xs s d).map _ = _
    by_cases hs : x.1 = s
    · rw [if_pos (by simp [hs])]
      rfl
    · rw [if_neg (by simp [hs])]
      show x.2.task :: (pushDep xs s d).map (fun x => x.2.task) = _
      rw [ih]
      rfl

theorem pushDep_any (list : List (Nat × TaskDiskModel)) (s : Nat) (d : String) (k : Nat) :
    (pushDep list s d).any (fun x => x.1 == k) = list.any (fun x => x.1 == k) := by
  induction list with
  | nil => rfl
  | cons x xs ih =>
    show (if x.1 == s then _ :: xs else x :: pushDep xs s d).any _ = _
    by_cases hs : x.1 = s
    · rw [if_pos (by simp [hs])]
      rfl
    · rw [if_neg (by simp [hs])]
      rw [List.any_cons, List.any_cons, ih]

theorem pushDep_depsAt_self {list : List (Nat × TaskDiskModel)} {s : Nat} (d : String)
    (h : list.any (fun x => x.1 == s) = true) :
    depsAt (pushDep list s d) s = depsAt list s ++ [d] := by
  induction list with
  | nil => cases h
  | cons x xs ih =>
    unfold depsAt
    show ((List.find? _ (if x.1 == s then _ :: xs else x :: pushDep xs s d)).map _).getD [] = _
    by_cases hs : x.1 = s
    · rw [if_pos (by simp [hs])]
      rw [List.find?_cons_of_pos _ (by simp [hs]), List.find?_cons_of_pos _ (by simp [hs])]
      rfl
    · rw [if_neg (by simp [hs])]
      rw [List.find?_cons_of_neg _ (by simp [hs]), List.find?_cons_of_neg _ (by simp [hs])]
      have h2 : xs.any (fun x => x.1 == s) = true := by
        rw [List.any_cons] at h
        rcases Bool.or_eq_true_iff.mp h with hh | hh
        · exact absurd (by simpa using hh) hs
        · exact hh
      exact ih h2

theorem pushDep_depsAt_ne {list : List (Nat × TaskDiskModel)} {s k : Nat} (d : String)
    (h : k ≠ s) : depsAt (pushDep list s d) k = depsAt list k := by
  induction list with
  | nil => rfl
  | cons x xs ih =>
    unfold depsAt
    show ((List.find? _ (if x.1 == s then _ :: xs else x :: pushDep xs s d)).map _).getD [] = _
    by_cases hs : x.1 = s
    · have hxk : ¬(x.1 = k) := by rw [hs]; exact fun hh => h hh.symm
      rw [if_pos (by simp [hs])]
      rw [List.find?_cons_of_neg _ (by simp [hxk]), List.find?_cons_of_neg _ (by simp [hxk])]
    · rw [if_neg (by simp [hs])]
      by_cases hk : x.1 = k
      · rw [List.find?_cons_of_pos _ (by simp [hk]), List.find?_cons_of_pos _ (by simp [hk])]
      · rw [List.find?_cons_of_neg _ (by simp [hk]), List.find?_cons_of_neg _ (by simp [hk])]
        exact ih

theorem pushDep_idAt (list : List (Nat × TaskDiskModel)) (s : Nat) (d : String) (k : Nat) :
    idAt (pushDep list s d) k = idAt list k := by
  unfold idAt
  rw [show (fun (x : Nat × TaskDiskModel) => x.2.task.id) =
    (fun t : Task => t.id) ∘ (fun (x : Nat × TaskDiskModel) => x.2.task) from rfl]
  rw [← Option.map_map, pushDep_find_task, Option.map_map]

/-- The dependency ids that the edge loop appends for source index `k`:
the ids of the targets of the live edges leaving `k`, in edge order. -/
def targetsIds (list : List (Nat × TaskDiskModel)) (es : List (Nat × Nat)) (k : Nat) :
    List String :=
  (es.filter (fun e => e.1 == k)).map (fun e => (idAt list e.2).getD "")

theorem collectDiskEdges_spec (es : List (Nat × Nat)) :
    ∀ list : List (Nat × TaskDiskModel),
      (∀ e ∈ es, list.any (fun x => x.1 == e.1) = true ∧
        list.any (fun x => x.1 == e.2) = true) →
      ∃ list', collectDiskEdges list es = some list' ∧
        list'.map (fun x => x.1) = list.map (fun x => x.1) ∧
        list'.map (fun x => x.2.task) = list.map (fun x => x.2.task) ∧
        (∀ k, ((list'.find? (fun x => x.1 == k)).map (fun x => x.2.task)) =
          ((list.find? (fun x => x.1 == k)).map (fun x => x.2.task))) ∧
        (∀ k, idAt list' k = idAt list k) ∧
        (∀ k, depsAt list' k = depsAt list k ++ targetsIds list es k) := by
  induction es with
  | nil =>
    intro list _
    refine ⟨list, rfl, rfl, rfl, fun k => rfl, fun k => rfl, fun k => ?_⟩
    unfold targetsIds
    simp
  | cons e es ih =>
    intro list h
    have he := h e (List.mem_cons_self _ _)
    have hfind : ∃ y, list.find? (fun x => x.1 == e.2) = some y := by
      obtain ⟨xe, hxe, hxe2⟩ := List.any_eq_true.mp he.2
      cases hf : list.find? (fun x => x.1 == e.2) with
      | none => exact absurd hxe2 (by simpa using List.find?_eq_none.mp hf xe hxe)
      | some y => exact ⟨y, rfl⟩
    obtain ⟨y, hy⟩ := hfind
    have hid : idAt list e.2 = some y.2.task.id := by
      unfold idAt
      rw [hy]
      rfl
    have hstep : collectDiskEdges list (e :: es) =
        collectDiskEdges (pushDep list e.1 y.2.task.id) es := by
      conv_lhs => unfold collectDiskEdges
      rw [hy]
      show (if (list.any fun x => x.1 == e.1) = true then
        collectDiskEdges (pushDep list e.1 y.2.task.id) es else none) = _
      rw [if_pos he.1]
    have h2 : ∀ e' ∈ es, (pushDep list e.1 y.2.task.id).any (fun x => x.1 == e'.1) = true ∧
        (pushDep list e.1 y.2.task.id).any (fun x => x.1 == e'.2) = true := by
      intro e' he'
      have hh := h e' (List.mem_cons_of_mem _ he')
      rw [pushDep_any, pushDep_any]
      exact hh
    obtain ⟨list', hcoll, hkeys, htasks, hfindt, hidp, hdeps⟩ :=
      ih (pushDep list e.1 y.2.task.id) h2
    refine ⟨list', by rw [hstep]; exact hcoll, ?_, ?_, ?_, ?_, ?_⟩
    · rw [hkeys, pushDep_keys]
    · rw [htasks, pushDep_tasks]
    · intro k
      rw [hfindt k, pushDep_find_task]
    · intro k
      rw [hidp k, pushDep_idAt]
    · intro k
      rw [hdeps k]
      have htarg : targetsIds (pushDep list e.1 y.2.task.id) es k = targetsIds list es k := by
        unfold targetsIds
        rw [show (fun e' : Nat × Nat => (idAt (pushDep list e.1 y.2.task.id) e'.2).getD "") =
          (fun e' : Nat × Nat => (idAt list e'.2).getD "") from
          funext fun e' => by rw [pushDep_idAt]]
      rw [htarg]
      by_cases hk : k = e.1
      · subst hk
        rw [pushDep_depsAt_self _ he.1]
        unfold targetsIds
        rw [List.filter_cons, if_pos (by simp), List.map_cons, hid, List.append_assoc]
        rfl
      · rw [pushDep_depsAt_ne _ hk]
        unfold targetsIds
        rw [List.filter_cons, if_neg (by simp only [beq_iff_eq]; exact fun hh => hk hh.symm)]

/-! ## Round trip, part 3: rebuilding the graph with `from_disk_model` -/

theorem find?_key_of_mem_pairwise {L : List (Nat × TaskDiskModel)}
    (hpw : L.Pairwise (fun x y => x.1 < y.1)) {x : Nat × TaskDiskModel} (hx : x ∈ L) :
    L.find? (fun y => y.1 == x.1) = some x := by
  induction L with
  | nil => cases hx
  | cons h t ih =>
    rcases List.mem_cons.mp hx with hh | hh
    · subst hh
      exact List.find?_cons_of_pos _ (by simp)
    · have hlt : h.1 < x.1 := (List.pairwise_cons.mp hpw).1 x hh
      rw [List.find?_cons_of_neg _ (by simp only [beq_iff_eq]; omega)]
      exact ih (List.pairwise_cons.mp hpw).2 hh

theorem pairwise_keys_of_map_eq {L L' : List (Nat × TaskDiskModel)}
    (hkeys : L'.map (fun x => x.1) = L.map (fun x => x.1))
    (hpw : L.Pairwise (fun x y => x.1 < y.1)) :
    L'.Pairwise (fun x y => x.1 < y.1) := by
  have h1 : (L.map (fun x => x.1)).Pairwise (· < ·) := List.pairwise_map.mpr hpw
  rw [← hkeys] at h1
  exact List.pairwise_map.mp h1

theorem any_key_of_map_eq {L L' : List (Nat × TaskDiskModel)}
    (hkeys : L'.map (fun x => x.1) = L.map (fun x => x.1)) (k : Nat) :
    L'.any (fun x => x.1 == k) = L.any (fun x => x.1 == k) := by
  have hiff : (L'.any (fun x => x.1 == k) = true) ↔ (L.any (fun x => x.1 == k) = true) := by
    rw [List.any_eq_true, List.any_eq_true]
    constructor
    · rintro ⟨x, hx, hpx⟩
      have hm : x.1 ∈ L.map (fun x => x.1) := by
        rw [← hkeys]
        exact List.mem_map_of_mem _ hx
      obtain ⟨y, hy, hyx⟩ := List.mem_map.mp hm
      refine ⟨y, hy, ?_⟩
      show (y.1 == k) = true
      rw [show y.1 = x.1 from hyx]
      exact hpx
    · rintro ⟨x, hx, hpx⟩
      have hm : x.1 ∈ L'.map (fun x => x.1) := by
        rw [hkeys]
        exact List.mem_map_of_mem _ hx
      obtain ⟨y, hy, hyx⟩ := List.mem_map.mp hm
      refine ⟨y, hy, ?_⟩
      show (y.1 == k) = true
      rw [show y.1 = x.1 from hyx]
      exact hpx
  cases hL' : L'.any (fun x => x.1 == k) <;> cases hL : L.any (fun x => x.1 == k)
  · rfl
  · exact absurd (hiff.mpr hL) (by rw [hL']; simp)
  · exact absurd (hiff.mp hL') (by rw [hL]; simp)
  · rfl

theorem lookup_idMap_some_iff {rs : List TaskDiskModel} {d : String} {k : Nat} :
    lookupAssoc (buildIdMap [] rs 0) d = some k ↔ lastPos rs d = some k := by
  rw [lookupAssoc_buildIdMap]
  cases hl : lastPos rs d with
  | some k' => simp
  | none =>
    show lookupAssoc [] d = some k ↔ _
    constructor
    · intro h; cases h
    · intro h; cases h

theorem lookup_idMap_char {rs : List TaskDiskModel} {d : String} {k : Nat}
    (h : lookupAssoc (buildIdMap [] rs 0) d = some k) :
    k < rs.length ∧ ∃ rr, rs[k]? = some rr ∧ rr.task.id = d :=
  lastPos_some (lookup_idMap_some_iff.mp h)

theorem lookup_idMap_of_exists (rs : List TaskDiskModel) {d : String}
    (h : ∃ r ∈ rs, r.task.id = d) :
    ∃ k, lookupAssoc (buildIdMap [] rs 0) d = some k ∧ k < rs.length ∧
      ∃ rr, rs[k]? = some rr ∧ rr.task.id = d := by
  cases hl : lastPos rs d with
  | none =>
    obtain ⟨r, hr, hid⟩ := h
    exact absurd hid (lastPos_none_iff.mp hl r hr)
  | some k =>
    obtain ⟨hlt, rr, hrr, hid⟩ := lastPos_some hl
    exact ⟨k, lookup_idMap_some_iff.mpr hl, hlt, rr, hrr, hid⟩

theorem perDepEdge_elim {idMap : List (String × Nat)} {n : Nat} {r : TaskDiskModel}
    {d : String} {p : Nat × Nat} (h : perDepEdge idMap n r d = some p) :
    lookupAssoc idMap r.task.id = some p.1 ∧ lookupAssoc idMap d = some p.2 := by
  unfold perDepEdge at h
  cases h1 : lookupAssoc idMap r.task.id with
  | none => rw [h1] at h; cases h
  | some si =>
    cases h2 : lookupAssoc idMap d with
    | none => rw [h1, h2] at h; cases h
    | some ti =>
      rw [h1, h2] at h
      dsimp only at h
      by_cases hb : (decide (si < n) && decide (ti < n)) = true
      · rw [if_pos hb] at h
        injection h with h3
        rw [← h3]
        exact ⟨rfl, rfl⟩
      · rw [if_neg hb] at h
        cases h

theorem perDepEdge_intro {idMap : List (String × Nat)} {n si ti : Nat}
    {r : TaskDiskModel} {d : String}
    (h1 : lookupAssoc idMap r.task.id = some si) (h2 : lookupAssoc idMap d = some ti)
    (hs : si < n) (ht : ti < n) : perDepEdge idMap n r d = some (si, ti) := by
  unfold perDepEdge
  rw [h1, h2]
  dsimp only
  rw [if_pos (by simp [hs, ht])]

theorem allDiskEdges_some {idMap : List (String × Nat)} {n : Nat} :
    ∀ rs : List TaskDiskModel,
      (∀ r ∈ rs, ∀ d ∈ r.dependencies, (perDepEdge idMap n r d).isSome = true) →
      ∃ es, allDiskEdges idMap n rs = some es ∧
        ∀ p, p ∈ es ↔ ∃ r ∈ rs, ∃ d ∈ r.dependencies, perDepEdge idMap n r d = some p := by
  intro rs
  induction rs with
  | nil =>
    intro _
    exact ⟨[], rfl, by simp⟩
  | cons r rs ih =>
    intro h
    have hfor : ∃ l, optionList (r.dependencies.map (fun d => perDepEdge idMap n r d)) = some l ∧
        ∀ p, p ∈ l ↔ some p ∈ r.dependencies.map (fun d => perDepEdge idMap n r d) := by
      apply optionList_some
      intro x hx
      obtain ⟨d, hd, hxd⟩ := List.mem_map.mp hx
      rw [← hxd]
      exact h r (List.mem_cons_self _ _) d hd
    obtain ⟨l, hl, hlmem⟩ := hfor
    obtain ⟨es, hes, hmem⟩ := ih (fun r' hr' => h r' (List.mem_cons_of_mem _ hr'))
    refine ⟨l ++ es, ?_, ?_⟩
    · show (match diskEdgesFor idMap n r, allDiskEdges idMap n rs with
        | some es1, some rest => some (es1 ++ rest)
        | _, _ => none) = some (l ++ es)
      rw [show diskEdgesFor idMap n r = some l from hl, hes]
    · intro p
      rw [List.mem_append, hlmem p, hmem p]
      constructor
      · rintro (hh | hh)
        · obtain ⟨d, hd, hpd⟩ := List.mem_map.mp hh
          exact ⟨r, List.mem_cons_self _ _, d, hd, hpd⟩
        · obtain ⟨r', hr', d, hd, hpd⟩ := hh
          exact ⟨r', List.mem_cons_of_mem _ hr', d, hd, hpd⟩
      · rintro ⟨r', hr', d, hd, hpd⟩
        rcases List.mem_cons.mp hr' with hh | hh
        · subst hh
          exact Or.inl (List.mem_map.mpr ⟨d, hd, hpd⟩)
        · exact Or.inr ⟨r', hh, d, hd, hpd⟩

theorem filterMap_id_map_some (l : List Task) :
    ((l.map (fun t => some t)).filterMap id) = l := by
  induction l with
  | nil => rfl
  | cons x xs ih =>
    simp only [List.map_cons, List.filterMap_cons, id]
    rw [ih]

theorem filterMap_id_map_some_pair (l : List (Nat × Nat)) :
    ((l.map (fun e => some e)).filterMap id) = l := by
  induction l with
  | nil => rfl
  | cons x xs ih =>
    simp only [List.map_cons, List.filterMap_cons, id]
    rw [ih]

theorem taskAt_map_some {records : List TaskDiskModel} {k : Nat} {r : TaskDiskModel}
    (h : records[k]? = some r) :
    taskAt (records.map (fun r => some r.task)) k = some r.task := by
  unfold taskAt
  rw [List.getElem?_map, h]
  rfl

theorem mem_idPairs_iff {g : Database} {p : String × String} :
    p ∈ idPairs g ↔ ∃ e ∈ occupiedEdges g, ∃ u v, taskAt g.nodes e.1 = some u ∧
      taskAt g.nodes e.2 = some v ∧ u.id = p.1 ∧ v.id = p.2 := by
  unfold idPairs
  rw [List.mem_filterMap]
  constructor
  · rintro ⟨e, he, hres⟩
    cases hu : taskAt g.nodes e.1 with
    | none => rw [hu] at hres; cases hres
    | some u =>
      cases hv : taskAt g.nodes e.2 with
      | none => rw [hu, hv] at hres; cases hres
      | some v =>
        rw [hu, hv] at hres
        injection hres with h3
        exact ⟨e, he, u, v, hu, hv, by rw [← h3], by rw [← h3]⟩
  · rintro ⟨e, he, u, v, hu, hv, hup, hvp⟩
    refine ⟨e, he, ?_⟩
    rw [hu, hv]
    show some (u.id, v.id) = some p
    rw [hup, hvp]

/-- C1: for every graph built purely from the public store operations
(`add_task`, `remove_task`, `add_dependency`), converting to the disk
model and back (`from_disk_model(to_disk_model(g))`) succeeds and yields a
graph with the same set of task ids, the same task record (all per-task
fields) for each id, and the same dependency relation as a set of ordered
id pairs. -/
theorem disk_round_trip (g : Database) (hb : Built g) :
    ∃ g', (to_disk_model g).bind from_disk_model = some g' ∧
      (∀ tid, tid ∈ taskIds g' ↔ tid ∈ taskIds g) ∧
      (∀ tid, taskById g' tid = taskById g tid) ∧
      (∀ p : String × String, p ∈ idPairs g' ↔ p ∈ idPairs g) := by
  have hwf := built_wellFormed hb
  have hedges := hwf.2.1
  have hany : ∀ e ∈ occupiedEdges g,
      (collectNodes g.nodes 0).any (fun x => x.1 == e.1) = true ∧
      (collectNodes g.nodes 0).any (fun x => x.1 == e.2) = true := by
    intro e he
    obtain ⟨t1, ht1⟩ := Option.isSome_iff_exists.mp (hedges e he).1
    obtain ⟨t2, ht2⟩ := Option.isSome_iff_exists.mp (hedges e he).2
    exact ⟨collectNodes_any_of_taskAt ht1, collectNodes_any_of_taskAt ht2⟩
  obtain ⟨list', hcoll, hkeys, htasks, hfindt, hidp, hdeps⟩ :=
    collectDiskEdges_spec (occupiedEdges g) (collectNodes g.nodes 0) hany
  have hpw := collectNodes_pairwise g.nodes 0
  have hpw' : list'.Pairwise (fun x y => x.1 < y.1) := pairwise_keys_of_map_eq hkeys hpw
  have hfact : ∀ x ∈ list', taskAt g.nodes x.1 = some x.2.task ∧
      x.2.dependencies = targetsIds (collectNodes g.nodes 0) (occupiedEdges g) x.1 := by
    intro x hx
    have hfx : list'.find? (fun y => y.1 == x.1) = some x := find?_key_of_mem_pairwise hpw' hx
    have hkx : x.1 ∈ (collectNodes g.nodes 0).map (fun y => y.1) := by
      rw [← hkeys]
      exact List.mem_map_of_mem _ hx
    obtain ⟨y, hy, hyx⟩ := List.mem_map.mp hkx
    have hfy : (collectNodes g.nodes 0).find? (fun z => z.1 == x.1) = some y := by
      rw [show x.1 = y.1 from hyx.symm]
      exact find?_key_of_mem_pairwise hpw hy
    obtain ⟨_, haty, hdepy⟩ := collectNodes_mem hy
    rw [Nat.sub_zero] at haty
    constructor
    · have hft := hfindt x.1
      rw [hfx, hfy] at hft
      have hft2 : some x.2.task = some y.2.task := hft
      have hxy : x.2.task = y.2.task := by injection hft2
      rw [show x.1 = y.1 from hyx.symm, haty, hxy]
    · have hxdeps : depsAt list' x.1 = x.2.dependencies := by
        unfold depsAt
        rw [hfx]
        rfl
      have hydepsAt : depsAt (collectNodes g.nodes 0) x.1 = [] := by
        unfold depsAt
        rw [hfy]
        show y.2.dependencies = []
        exact hdepy
      have hd := hdeps x.1
      rw [hxdeps, hydepsAt, List.nil_append] at hd
      exact hd
  have hfactC : ∀ {k : Nat} {t : Task}, taskAt g.nodes k = some t →
      ∃ x ∈ list', x.1 = k ∧ x.2.task = t := by
    intro k t ht
    have hf0 := @collectNodes_find g.nodes 0 k
    rw [Nat.zero_add, ht] at hf0
    have hmemc := List.mem_of_find?_eq_some hf0
    have hkx : k ∈ list'.map (fun y => y.1) := by
      rw [hkeys]
      exact List.mem_map.mpr ⟨(k, ⟨[], t⟩), hmemc, rfl⟩
    obtain ⟨x, hx, hxk⟩ := List.mem_map.mp hkx
    refine ⟨x, hx, hxk, ?_⟩
    have hA := (hfact x hx).1
    rw [hxk, ht] at hA
    have hA2 : some t = some x.2.task := hA
    have := by injection hA2
    exact this.symm
  have hfactD : ∀ {m : Nat} {t2 : Task}, taskAt g.nodes m = some t2 →
      idAt (collectNodes g.nodes 0) m = some t2.id := by
    intro m t2 ht
    have hf0 := @collectNodes_find g.nodes 0 m
    rw [Nat.zero_add, ht] at hf0
    unfold idAt
    rw [hf0]
    rfl
  have htdm : to_disk_model g = some ⟨list'.map (fun x => x.2)⟩ := by
    unfold to_disk_model
    rw [hcoll]
    rfl
  set records := list'.map (fun x => x.2) with hrecdef
  clear_value records
  have hrt : records.map (fun r => r.task) = g.nodes.filterMap id := by
    rw [hrecdef, List.map_map]
    rw [show ((fun r : TaskDiskModel => r.task) ∘ (fun x : Nat × TaskDiskModel => x.2)) =
      (fun x : Nat × TaskDiskModel => x.2.task) from rfl]
    rw [htasks, collectNodes_map_task]
  have hrecmem : ∀ {r : TaskDiskModel}, r ∈ records → ∃ x ∈ list', x.2 = r := by
    intro r hr
    rw [hrecdef] at hr
    obtain ⟨x, hx, hxr⟩ := List.mem_map.mp hr
    exact ⟨x, hx, hxr⟩
  have hG4 : ∀ r ∈ records, ∀ d ∈ r.dependencies,
      (perDepEdge (buildIdMap [] records 0) records.length r d).isSome = true := by
    intro r hr d hd
    obtain ⟨x, hx, hxr⟩ := hrecmem hr
    obtain ⟨si, hsi, hsilt, _⟩ := lookup_idMap_of_exists records ⟨r, hr, rfl⟩
    rw [← hxr, (hfact x hx).2] at hd
    unfold targetsIds at hd
    obtain ⟨e0, he0f, he0d⟩ := List.mem_map.mp hd
    have he0 : e0 ∈ occupiedEdges g := List.mem_of_mem_filter he0f
    obtain ⟨t2, ht2⟩ := Option.isSome_iff_exists.mp (hedges e0 he0).2
    rw [hfactD ht2] at he0d
    have hd2 : t2.id = d := he0d
    have ht2mem : t2 ∈ records.map (fun r => r.task) := by
      rw [hrt]
      exact taskAt_mem_filterMap ht2
    obtain ⟨r2, hr2, hr2t⟩ := List.mem_map.mp ht2mem
    obtain ⟨ti, hti, htilt, _⟩ := lookup_idMap_of_exists records
      ⟨r2, hr2, by rw [show r2.task = t2 from hr2t, hd2]⟩
    rw [perDepEdge_intro hsi hti hsilt htilt]
    rfl
  obtain ⟨es, hes, hmemes⟩ := allDiskEdges_some records hG4
  have hfdm : from_disk_model ⟨records⟩ = some ⟨records.map (fun r => some r.task),
      es.map some, [], [], buildIdMap [] records 0⟩ := by
    show (allDiskEdges (buildIdMap [] records 0) records.length records).map _ = _
    rw [hes]
    rfl
  have hga' : get_all_tasks ⟨records.map (fun r => some r.task), es.map some, [], [],
      buildIdMap [] records 0⟩ = records.map (fun r => r.task) := by
    show ((records.map (fun r => some r.task)).filterMap id) = _
    rw [show records.map (fun r => some r.task) =
      (records.map (fun r => r.task)).map (fun t => some t) from by rw [List.map_map]; rfl]
    exact filterMap_id_map_some _
  have hgeq : get_all_tasks ⟨records.map (fun r => some r.task), es.map some, [], [],
      buildIdMap [] records 0⟩ = get_all_tasks g := by
    rw [hga', hrt]
    rfl
  have hocc' : occupiedEdges ⟨records.map (fun r => some r.task), es.map some, [], [],
      buildIdMap [] records 0⟩ = es := by
    show ((es.map some).filterMap id) = es
    exact filterMap_id_map_some_pair es
  refine ⟨⟨records.map (fun r => some r.task), es.map some, [], [],
    buildIdMap [] records 0⟩, ?_, ?_, ?_, ?_⟩
  · rw [htdm]
    exact hfdm
  · intro tid
    unfold taskIds
    rw [hgeq]
  · intro tid
    unfold taskById
    rw [hgeq]
  · intro p
    rw [mem_idPairs_iff, mem_idPairs_iff]
    constructor
    · rintro ⟨e, he, u, v, hu, hv, hup, hvp⟩
      rw [hocc'] at he
      obtain ⟨r, hr, d, hd, hpd⟩ := (hmemes e).mp he
      obtain ⟨hsl, htl⟩ := perDepEdge_elim hpd
      obtain ⟨hlt1, rr1, hrr1, hid1⟩ := lookup_idMap_char hsl
      obtain ⟨hlt2, rr2, hrr2, hid2⟩ := lookup_idMap_char htl
      have hu2 : taskAt (records.map (fun r => some r.task)) e.1 = some u := hu
      have hv2 : taskAt (records.map (fun r => some r.task)) e.2 = some v := hv
      rw [taskAt_map_some hrr1] at hu2
      rw [taskAt_map_some hrr2] at hv2
      have hur : rr1.task = u := by injection hu2
      have hvr : rr2.task = v := by injection hv2
      obtain ⟨x, hx, hxr⟩ := hrecmem hr
      rw [← hxr, (hfact x hx).2] at hd
      unfold targetsIds at hd
      obtain ⟨e0, he0f, he0d⟩ := List.mem_map.mp hd
      have he0 : e0 ∈ occupiedEdges g := List.mem_of_mem_filter he0f
      have he0k : e0.1 = x.1 := by simpa using List.of_mem_filter he0f
      obtain ⟨t2, ht2⟩ := Option.isSome_iff_exists.mp (hedges e0 he0).2
      rw [hfactD ht2] at he0d
      have hd2 : t2.id = d := he0d
      have hu0 : taskAt g.nodes e0.1 = some x.2.task := by
        rw [he0k]
        exact (hfact x hx).1
      refine ⟨e0, he0, x.2.task, t2, hu0, ht2, ?_, ?_⟩
      · rw [← hup, ← hur, hid1, ← hxr]
      · rw [hd2, ← hvp, ← hvr, hid2]
    · rintro ⟨e0, he0, u, v, hu, hv, hup, hvp⟩
      obtain ⟨x, hx, hxk, hxt⟩ := hfactC hu
      have hrmem : x.2 ∈ records := by
        rw [hrecdef]
        exact List.mem_map_of_mem _ hx
      have hdmem : v.id ∈ x.2.dependencies := by
        rw [(hfact x hx).2]
        unfold targetsIds
        refine List.mem_map.mpr ⟨e0, ?_, ?_⟩
        · exact List.mem_filter.mpr ⟨he0, by simp [hxk]⟩
        · rw [hfactD hv]
          rfl
      obtain ⟨si, hsi, hsilt, rr1, hrr1, hid1⟩ :=
        lookup_idMap_of_exists records ⟨x.2, hrmem, rfl⟩
      have hvmem : v ∈ records.map (fun r => r.task) := by
        rw [hrt]
        exact taskAt_mem_filterMap hv
      obtain ⟨r2, hr2, hr2t⟩ := List.mem_map.mp hvmem
      obtain ⟨ti, hti, htilt, rr2, hrr2, hid2⟩ :=
        lookup_idMap_of_exists records ⟨r2, hr2, by rw [show r2.task = v from hr2t]⟩
      have hpe : perDepEdge (buildIdMap [] records 0) records.length x.2 v.id =
          some (si, ti) := perDepEdge_intro hsi hti hsilt htilt
      have hmem : (si, ti) ∈ es := (hmemes (si, ti)).mpr ⟨x.2, hrmem, v.id, hdmem, hpe⟩
      refine ⟨(si, ti), by rw [hocc']; exact hmem, rr1.task, rr2.task,
        taskAt_map_some hrr1, taskAt_map_some hrr2, ?_, ?_⟩
      · rw [hid1, hxt, hup]
      · rw [hid2, hvp]

/-- Witness for C1: a graph built by two `add_task` calls followed by one
`add_dependency` ("A" depends on "B"). -/
theorem disk_round_trip_witness :
    ∃ g', (to_disk_model (addEdgeRaw (add_task (add_task emptyDatabase
        ⟨"A", "buy milk", 0, none, none, []⟩) ⟨"B", "go to store", 1, none, none, []⟩)
        0 1)).bind from_disk_model = some g' ∧
      (∀ tid, tid ∈ taskIds g' ↔ tid ∈ taskIds (addEdgeRaw (add_task (add_task emptyDatabase
        ⟨"A", "buy milk", 0, none, none, []⟩) ⟨"B", "go to store", 1, none, none, []⟩) 0 1)) ∧
      (∀ tid, taskById g' tid = taskById (addEdgeRaw (add_task (add_task emptyDatabase
        ⟨"A", "buy milk", 0, none, none, []⟩) ⟨"B", "go to store", 1, none, none, []⟩) 0 1) tid) ∧
      (∀ p : String × String, p ∈ idPairs g' ↔ p ∈ idPairs (addEdgeRaw (add_task (add_task
        emptyDatabase ⟨"A", "buy milk", 0, none, none, []⟩)
        ⟨"B", "go to store", 1, none, none, []⟩) 0 1)) :=
  disk_round_trip _
    (@Built.addDep (add_task (add_task emptyDatabase ⟨"A", "buy milk", 0, none, none, []⟩)
        ⟨"B", "go to store", 1, none, none, []⟩)
      (addEdgeRaw (add_task (add_task emptyDatabase ⟨"A", "buy milk", 0, none, none, []⟩)
        ⟨"B", "go to store", 1, none, none, []⟩) 0 1)
      "A" "B"
      (Built.addTask _ (Built.addTask _ Built.empty))
      (by decide))

end Td
